import Mathlib

/-!
Verification of the checksummed sstable data source
(`sstables/checksummed_data_source.cc`).

The C++ class `checksummed_file_data_source_impl` is embedded as a state
structure `ChecksummedDataSource` together with three operations mirroring the
member functions: `ChecksummedDataSource.construct` (the constructor),
`ChecksummedDataSource.get` and `ChecksummedDataSource.skip`.  Bytes are
modelled as `Nat`, files as `List Nat`, `uint64_t` arithmetic as `Nat`
arithmetic (with an explicit `% 2^64` where the C++ computation can wrap), and
the pluggable checksum algorithm (`ChecksumUtils` concept) as a structure of
functions.  Fallible paths (`on_internal_error`, `std::runtime_error`,
`malformed_sstable_exception`, and the undefined behaviour of storing through
a null `digest_validation_result*`) are surfaced through `Except SstError`.
-/

set_option maxRecDepth 2000

namespace Sstables

/-- `2^64`, the modulus of the C++ `uint64_t` arithmetic. -/
def W64 : Nat := 2 ^ 64

/-- Halving recursion with explicit fuel (structural, so that it evaluates
inside the kernel): counts how often `n` can be halved before it becomes
odd or zero. -/
def ctz_rec : Nat → Nat → Nat
  | 0, _ => 0
  | fuel + 1, n => if n % 2 = 1 ∨ n = 0 then 0 else ctz_rec fuel (n / 2) + 1

/-- `count_trailing_zeros` (seastar bitops), used by the constructor to turn a
power-of-two chunk size into a shift amount. -/
def count_trailing_zeros (n : Nat) : Nat := ctz_rec n n

/-- The checksum side table `sstables::checksum`: chunk size plus one 32-bit
checksum per chunk, indexed by chunk number. -/
structure Checksum where
  chunk_size : Nat
  checksums : List Nat
deriving Repr, DecidableEq

/-- The pluggable checksum algorithm: the `ChecksumUtils` concept
(`init_checksum`, `checksum`) together with the free function
`checksum_combine_or_feed` used for the whole-file digest. -/
structure ChecksumUtils where
  init_checksum : Nat
  checksum : List Nat → Nat
  checksum_combine_or_feed : Nat → Nat → List Nat → Nat

/-- `sstables::digest_validation_status`. -/
inductive digest_validation_status where
  | invalid
  | valid
  | in_progress
deriving Repr, DecidableEq

/-- `sstables::digest_validation_result`. -/
structure digest_validation_result where
  status : digest_validation_status
  msg : Option String
deriving Repr, DecidableEq

/-- The ways the embedded operations can fail. -/
inductive SstError where
  /-- `on_internal_error(sstlog, msg)`. -/
  | internal (msg : String)
  /-- `throw std::runtime_error(msg)` (the misaligned-read check in `get`). -/
  | runtime (msg : String)
  /-- `sstables::malformed_sstable_exception`: a chunk of size `size` at file
  offset `off` failed its checksum (`expected` from the table vs `actual`). -/
  | malformed (size off expected actual : Nat)
  /-- Undefined behaviour: a store through a null
  `digest_validation_result*`. -/
  | nullWrite
deriving Repr, DecidableEq

/-- Model of the seastar file input stream produced by
`make_file_input_stream(f, start, len)`: `off` is the next absolute file
offset to read and `hi = start + len` is the end of the opened window.
Reads stop early at the end of the opened window and at the physical end of
the file (short reads at EOF). -/
structure FileStream where
  off : Nat
  hi : Nat
deriving Repr, DecidableEq

/-- `input_stream::read_exactly(n)`: returns the next `n` bytes, or fewer if
the opened window or the file ends first; the position advances by the number
of bytes returned. -/
def FileStream.read_exactly (st : FileStream) (file : List Nat) (n : Nat) :
    List Nat × FileStream :=
  let buf := (file.drop st.off).take (min n (st.hi - st.off))
  (buf, { st with off := st.off + buf.length })

/-- `input_stream::skip(n)`: consumes `n` bytes (clipped at the end of the
opened window) without materializing them. -/
def FileStream.skip (st : FileStream) (n : Nat) : FileStream :=
  { st with off := st.off + min n (st.hi - st.off) }

/-- The state of `checksummed_file_data_source_impl`.  Member `_x` of the C++
class becomes field `x`; the caller-owned `digest_validation_result*` is
modelled by `digest_result_provided` (was the pointer non-null?) together with
`digest_result` (the value last stored through it, `none` if never written)
and `digest_result_writes` (how many stores were performed). -/
structure ChecksummedDataSource where
  file : List Nat
  checksum : Checksum
  algo : ChecksumUtils
  expected_digest : Option Nat
  actual_digest : Nat
  digest_result_provided : Bool
  digest_result : Option digest_validation_result
  digest_result_writes : Nat
  chunk_size_trailing_zeros : Nat
  file_len : Nat
  underlying_pos : Nat
  pos : Nat
  beg_pos : Nat
  end_pos : Nat
  input_stream : Option FileStream

/-- `*_digest_result = r`: a store through the caller-supplied pointer.  When
the caller passed a null pointer this dereference is undefined behaviour,
modelled as `SstError.nullWrite`. -/
def ChecksummedDataSource.write_digest_result (s : ChecksummedDataSource)
    (r : digest_validation_result) : Except SstError ChecksummedDataSource :=
  if s.digest_result_provided then
    .ok { s with digest_result := some r,
                 digest_result_writes := s.digest_result_writes + 1 }
  else
    .error .nullWrite

/-- The constructor `checksummed_file_data_source_impl(f, file_len, checksum,
pos, len, options, digest, digest_result)`.  `~(chunk_size - 1)` on `uint64_t`
is `2^64 - chunk_size`; `_end_pos = pos + len` can wrap and is taken mod
`2^64`. -/
def ChecksummedDataSource.construct (file : List Nat) (file_len : Nat)
    (cksum : Checksum) (algo : ChecksumUtils) (pos : Nat) (len : Nat)
    (digest : Option Nat) (digest_result_provided : Bool) :
    Except SstError ChecksummedDataSource :=
  let chunk_size := cksum.chunk_size
  if chunk_size = 0 ∨ chunk_size &&& (chunk_size - 1) ≠ 0 then
    .error (.internal "Invalid chunk size")
  else
  let s : ChecksummedDataSource := {
    file := file
    checksum := cksum
    algo := algo
    expected_digest := digest
    actual_digest := algo.init_checksum
    digest_result_provided := digest_result_provided
    digest_result := none
    digest_result_writes := 0
    chunk_size_trailing_zeros := count_trailing_zeros chunk_size
    file_len := file_len
    underlying_pos := 0
    pos := pos
    beg_pos := pos
    end_pos := (pos + len) % W64
    input_stream := none }
  if s.pos > s.file_len then
    .error (.internal "attempt to read beyond end")
  else if len = 0 ∨ s.pos = s.file_len then
    -- Nothing to read
    .ok { s with end_pos := s.pos }
  else
  let s := if len > s.file_len - s.pos then { s with end_pos := s.file_len } else s
  let open_stream : ChecksummedDataSource → Except SstError ChecksummedDataSource :=
    fun s =>
      (s.write_digest_result ⟨.in_progress, none⟩).map (fun s =>
        let start := s.beg_pos &&& (W64 - chunk_size)
        let end_ := ((s.end_pos &&& (W64 - chunk_size)) + chunk_size) % W64
        { s with input_stream := some ⟨start, start + (end_ - start)⟩
                 underlying_pos := start })
  if s.expected_digest.isSome then
    if s.end_pos - s.pos < s.file_len then
      .error (.internal "Cannot check digest with a partial read")
    else if s.digest_result_provided = false then
      .error (.internal "Requested digest check but no output parameter was provided.")
    else
      open_stream s
  else
    open_stream s

/-- `checksummed_file_data_source_impl::get()`.  Returns the delivered
(front-trimmed) buffer and the successor state.  The checksum-table access
`_checksum.checksums[_pos >> _chunk_size_trailing_zeros]` is unchecked vector
indexing in C++, modelled with `List.getD _ _ 0`; every scenario considered
below keeps the index in range. -/
def ChecksummedDataSource.get (s : ChecksummedDataSource) :
    Except SstError (List Nat × ChecksummedDataSource) :=
  let chunk_size := s.checksum.chunk_size
  if s.pos ≥ s.end_pos then
    .ok ([], s)
  else if s.pos ≠ s.beg_pos ∧ s.pos &&& (chunk_size - 1) ≠ 0 then
    .error (.runtime "Checksummed reader not aligned to chunk boundary")
  else match s.input_stream with
    | none => .error (.runtime "read from a stream that was never opened")
    | some st =>
      let r := st.read_exactly s.file chunk_size
      let buf := r.1
      let expected_checksum :=
        s.checksum.checksums.getD (s.pos >>> s.chunk_size_trailing_zeros) 0
      let actual_checksum := s.algo.checksum buf
      if expected_checksum ≠ actual_checksum then
        .error (.malformed buf.length s.underlying_pos expected_checksum actual_checksum)
      else
      let s1 := { s with
        input_stream := some r.2
        actual_digest :=
          if s.expected_digest.isSome then
            s.algo.checksum_combine_or_feed s.actual_digest actual_checksum buf
          else s.actual_digest }
      let trimmed := buf.drop (s1.pos &&& (chunk_size - 1))
      let s1 := { s1 with pos := s1.pos + trimmed.length,
                          underlying_pos := s1.underlying_pos + chunk_size }
      match s1.expected_digest with
      | some ed =>
        if s1.pos = s1.file_len then
          if ed ≠ s1.actual_digest then
            (s1.write_digest_result
              ⟨.invalid, some ("Digest mismatch: expected=" ++ toString ed ++
                ", actual=" ++ toString s1.actual_digest)⟩).map
              (fun s2 => (trimmed, s2))
          else
            (s1.write_digest_result ⟨.valid, none⟩).map (fun s2 => (trimmed, s2))
        else
          .ok (trimmed, s1)
      | none => .ok (trimmed, s1)

/-- `checksummed_file_data_source_impl::skip(n)`.  The returned
`temporary_buffer` is always empty, so only the successor state is kept. -/
def ChecksummedDataSource.skip (s : ChecksummedDataSource) (n : Nat) :
    Except SstError ChecksummedDataSource :=
  if s.expected_digest.isSome then
    .error (.internal "Tried to skip on a data source for which digest check has been requested.")
  else
  let chunk_size := s.checksum.chunk_size
  if s.pos + n > s.end_pos then
    .error (.internal "Skipping over the end position is disallowed")
  else
  let s := { s with pos := s.pos + n }
  if s.pos = s.end_pos then
    .ok s
  else
  let underlying_n := (s.pos &&& (W64 - chunk_size)) - s.underlying_pos
  match s.input_stream with
  | none => .error (.runtime "skip on a stream that was never opened")
  | some st =>
    .ok { s with beg_pos := s.pos
                 underlying_pos := s.underlying_pos + underlying_n
                 input_stream := some (st.skip underlying_n) }

/-- The standard driver loop over a `data_source`: pull buffers with `get`
until the first empty one and concatenate what was delivered.  `fuel` bounds
the number of pulls; running out of fuel is reported as an error, and every
theorem below supplies enough fuel for the loop to finish on its own. -/
def readAll : Nat → ChecksummedDataSource → Except SstError (List Nat × ChecksummedDataSource)
  | 0, _ => .error (.internal "out of fuel")
  | fuel + 1, s => do
    let r ← s.get
    if r.1.isEmpty then
      .ok ([], r.2)
    else
      let rest ← readAll fuel r.2
      .ok (r.1 ++ rest.1, rest.2)

/-- The bytes of chunk number `i` of a file: the on-disk chunk layout is
`chunk_size` bytes per chunk, with the last chunk allowed to be shorter. -/
def chunkAt (file : List Nat) (chunk_size i : Nat) : List Nat :=
  (file.drop (i * chunk_size)).take chunk_size

/-- Number of chunks of a file of `file_len` bytes. -/
def num_chunks (file_len chunk_size : Nat) : Nat :=
  (file_len + chunk_size - 1) / chunk_size

/-- The file is uncorrupted: every chunk's entry in the checksum table matches
the checksum of that chunk's bytes. -/
def Uncorrupted (file : List Nat) (t : Checksum) (algo : ChecksumUtils) : Prop :=
  ∀ i < num_chunks file.length t.chunk_size,
    t.checksums.getD i 0 = algo.checksum (chunkAt file t.chunk_size i)

instance (file : List Nat) (t : Checksum) (algo : ChecksumUtils) :
    Decidable (Uncorrupted file t algo) :=
  Nat.decidableBallLT _ _


theorem ctz_rec_two_pow : ∀ (k fuel : Nat), 2 ^ k ≤ fuel → ctz_rec fuel (2 ^ k) = k := by
  intro k
  induction k with
  | zero =>
    intro fuel hf
    match fuel, hf with
    | fuel + 1, _ => simp [ctz_rec]
  | succ k ih =>
    intro fuel hf
    have h1 : (1:Nat) ≤ 2 ^ (k + 1) := Nat.one_le_two_pow
    match fuel, (by omega : 1 ≤ fuel) with
    | fuel + 1, _ =>
      rw [ctz_rec]
      have h2 : 2 ^ (k + 1) % 2 = 0 := by
        rw [Nat.pow_succ, Nat.mul_mod_left]
      have h3 : 2 ^ (k + 1) ≠ 0 := by positivity
      have h4 : 2 ^ (k + 1) / 2 = 2 ^ k := by
        rw [Nat.pow_succ, Nat.mul_div_cancel _ (by omega)]
      rw [if_neg (by omega), h4, ih fuel (by
        have h5 : 2 ^ (k + 1) = 2 ^ k * 2 := Nat.pow_succ ..
        have h6 : (1:Nat) ≤ 2 ^ k := Nat.one_le_two_pow
        omega)]

theorem count_trailing_zeros_two_pow (k : Nat) : count_trailing_zeros (2 ^ k) = k :=
  ctz_rec_two_pow k (2 ^ k) (Nat.le_refl _)

theorem two_pow_and_self_sub_one (k : Nat) : 2 ^ k &&& (2 ^ k - 1) = 0 := by
  rw [Nat.and_pow_two_sub_one_eq_mod, Nat.mod_self]

/-- The C++ expression `x & ~(chunk_size - 1)` on `uint64_t`, with
`chunk_size = 2^k`, is `x / 2^k * 2^k` (align `x` down to a chunk boundary):
the 64-bit complement of `2^k - 1` is `2^64 - 2^k`. -/
theorem and_w64_sub_two_pow {x k : Nat} (hx : x < W64) (hk : k ≤ 64) :
    x &&& (W64 - 2 ^ k) = x / 2 ^ k * 2 ^ k := by
  have h1 : W64 - 2 ^ k = (2 ^ (64 - k) - 1) <<< k := by
    rw [Nat.shiftLeft_eq, Nat.sub_mul, one_mul, ← Nat.pow_add]
    have : 64 - k + k = 64 := by omega
    rw [this]; rfl
  have h2 : x / 2 ^ k * 2 ^ k = (x >>> k) <<< k := by
    rw [Nat.shiftRight_eq_div_pow, Nat.shiftLeft_eq]
  rw [h1, h2]
  apply Nat.eq_of_testBit_eq
  intro i
  simp only [Nat.testBit_and, Nat.testBit_shiftLeft, Nat.testBit_shiftRight,
    Nat.testBit_two_pow_sub_one]
  by_cases hik : k ≤ i
  · by_cases hi64 : i < 64
    · simp [hik, ge_iff_le, Nat.add_sub_cancel' hik, show i - k < 64 - k by omega]
    · have hxi : x.testBit i = false := by
        apply Nat.testBit_lt_two_pow
        calc x < 2 ^ 64 := hx
        _ ≤ 2 ^ i := Nat.pow_le_pow_right (by omega) (by omega)
      have hxi2 : x.testBit (k + (i - k)) = false := by
        rwa [Nat.add_sub_cancel' hik]
      simp [hik, ge_iff_le, hxi, hxi2]
  · simp [ge_iff_le, hik]

theorem lt_num_chunks_iff {L cs i : Nat} (hcs : 0 < cs) :
    i < num_chunks L cs ↔ i * cs < L := by
  unfold num_chunks
  rw [Nat.lt_iff_add_one_le, Nat.le_div_iff_mul_le hcs]
  have hexp : (i + 1) * cs = i * cs + cs := by ring
  rw [hexp]
  omega

structure Inv (s : ChecksummedDataSource) (k : Nat) : Prop where
  cs_eq : s.checksum.chunk_size = 2 ^ k
  ctz_eq : s.chunk_size_trailing_zeros = k
  flen_eq : s.file_len = s.file.length
  end_le : s.end_pos ≤ s.file_len
  bound : s.file_len + 2 ^ k < W64
  align : s.pos < s.end_pos → s.pos = s.beg_pos ∨ s.pos % 2 ^ k = 0
  stream : s.pos < s.end_pos → ∃ st, s.input_stream = some st ∧
    st.off = s.pos / 2 ^ k * 2 ^ k ∧
    s.underlying_pos = st.off ∧
    st.hi = s.end_pos / 2 ^ k * 2 ^ k + 2 ^ k

def constructedState (file : List Nat) (file_len : Nat) (cksum : Checksum)
    (algo : ChecksumUtils) (pos : Nat) (digest : Option Nat) (k E : Nat) :
    ChecksummedDataSource := {
  file := file
  checksum := cksum
  algo := algo
  expected_digest := digest
  actual_digest := algo.init_checksum
  digest_result_provided := true
  digest_result := some ⟨.in_progress, none⟩
  digest_result_writes := 1
  chunk_size_trailing_zeros := k
  file_len := file_len
  underlying_pos := pos / 2 ^ k * 2 ^ k
  pos := pos
  beg_pos := pos
  end_pos := E
  input_stream := some ⟨pos / 2 ^ k * 2 ^ k, E / 2 ^ k * 2 ^ k + 2 ^ k⟩ }

theorem pow_le_64_of_bound {file_len k : Nat} (hbound : file_len + 2 ^ k < W64) :
    k ≤ 64 := by
  by_contra hk
  push_neg at hk
  have h1 : (2:Nat) ^ 64 ≤ 2 ^ k := Nat.pow_le_pow_right (by omega) (by omega)
  have h2 : W64 = 2 ^ 64 := rfl
  omega

theorem construct_ok {file : List Nat} {file_len : Nat} {cksum : Checksum}
    {algo : ChecksumUtils} {pos len : Nat} {digest : Option Nat} {k : Nat}
    (hcs : cksum.chunk_size = 2 ^ k)
    (hpos : pos ≤ file_len) (hbound : file_len + 2 ^ k < W64)
    (hlen : len ≠ 0) (hpf : pos ≠ file_len)
    (hdig : digest.isSome → min (pos + len) file_len - pos = file_len) :
    ChecksummedDataSource.construct file file_len cksum algo pos len digest true =
      .ok (constructedState file file_len cksum algo pos digest k
        (min (pos + len) file_len)) := by
  have hk64 : k ≤ 64 := pow_le_64_of_bound hbound
  have hW64 : W64 = 2 ^ 64 := rfl
  have hW : file_len < W64 := by omega
  unfold ChecksummedDataSource.construct
  rw [hcs]
  rw [if_neg (by
    push_neg
    exact ⟨by positivity, two_pow_and_self_sub_one k⟩)]
  simp only
  rw [if_neg (by omega : ¬ pos > file_len)]
  rw [if_neg (by
    push_neg
    exact ⟨hlen, hpf⟩)]
  have hdms : ∀ E : Nat, E / 2 ^ k * 2 ^ k ≤ E := fun E => Nat.div_mul_le_self E _
  have hposE : pos / 2 ^ k * 2 ^ k ≤ pos := hdms pos
  by_cases hclamp : len > file_len - pos
  · rw [if_pos hclamp]
    dsimp only
    have hEeq : min (pos + len) file_len = file_len := min_eq_right (by omega)
    have hmask_pos : pos &&& (W64 - 2 ^ k) = pos / 2 ^ k * 2 ^ k :=
      and_w64_sub_two_pow (by omega) hk64
    have hmask_E : file_len &&& (W64 - 2 ^ k) = file_len / 2 ^ k * 2 ^ k :=
      and_w64_sub_two_pow (by omega) hk64
    have hmod : (file_len / 2 ^ k * 2 ^ k + 2 ^ k) % W64 =
        file_len / 2 ^ k * 2 ^ k + 2 ^ k :=
      Nat.mod_eq_of_lt (by have := hdms file_len; omega)
    have hstart_le : pos / 2 ^ k * 2 ^ k ≤ file_len / 2 ^ k * 2 ^ k + 2 ^ k := by
      have h2 : pos / 2 ^ k ≤ file_len / 2 ^ k := Nat.div_le_div_right hpos
      have h3 : pos / 2 ^ k * 2 ^ k ≤ file_len / 2 ^ k * 2 ^ k :=
        Nat.mul_le_mul_right _ h2
      omega
    cases digest with
    | none =>
      dsimp only [Option.isSome_none, ChecksummedDataSource.write_digest_result]
      rw [if_neg (show ¬(false = true) by simp)]
      rw [if_pos rfl]
      dsimp only [Except.map]
      rw [constructedState, hEeq]
      simp only [Except.ok.injEq, ChecksummedDataSource.mk.injEq, FileStream.mk.injEq,
        Option.some.injEq, true_and, and_true, count_trailing_zeros_two_pow,
        hmask_pos, hmask_E, hmod]
      omega
    | some d =>
      have hfull : file_len - pos = file_len := by
        have := hdig rfl
        rwa [hEeq] at this
      dsimp only [Option.isSome_some, ChecksummedDataSource.write_digest_result]
      rw [if_pos rfl]
      rw [if_neg (show ¬(file_len - pos < file_len) by omega)]
      rw [if_neg (show ¬(true = false) by simp)]
      rw [if_pos rfl]
      dsimp only [Except.map]
      rw [constructedState, hEeq]
      simp only [Except.ok.injEq, ChecksummedDataSource.mk.injEq, FileStream.mk.injEq,
        Option.some.injEq, true_and, and_true, count_trailing_zeros_two_pow,
        hmask_pos, hmask_E, hmod]
      omega
  · rw [if_neg hclamp]
    dsimp only
    have hppl : pos + len ≤ file_len := by omega
    have hEeq : min (pos + len) file_len = pos + len := min_eq_left hppl
    have hmodE : (pos + len) % W64 = pos + len := Nat.mod_eq_of_lt (by omega)
    have hmask_pos : pos &&& (W64 - 2 ^ k) = pos / 2 ^ k * 2 ^ k :=
      and_w64_sub_two_pow (by omega) hk64
    have hmask_E : (pos + len) &&& (W64 - 2 ^ k) = (pos + len) / 2 ^ k * 2 ^ k :=
      and_w64_sub_two_pow (by omega) hk64
    have hmod : ((pos + len) / 2 ^ k * 2 ^ k + 2 ^ k) % W64 =
        (pos + len) / 2 ^ k * 2 ^ k + 2 ^ k :=
      Nat.mod_eq_of_lt (by have := hdms (pos + len); omega)
    have hstart_le : pos / 2 ^ k * 2 ^ k ≤ (pos + len) / 2 ^ k * 2 ^ k + 2 ^ k := by
      have h2 : pos / 2 ^ k ≤ (pos + len) / 2 ^ k :=
        Nat.div_le_div_right (by omega)
      have h3 : pos / 2 ^ k * 2 ^ k ≤ (pos + len) / 2 ^ k * 2 ^ k :=
        Nat.mul_le_mul_right _ h2
      omega
    cases digest with
    | none =>
      dsimp only [Option.isSome_none, ChecksummedDataSource.write_digest_result]
      rw [if_neg (show ¬(false = true) by simp)]
      rw [if_pos rfl]
      dsimp only [Except.map]
      rw [constructedState, hEeq]
      simp only [Except.ok.injEq, ChecksummedDataSource.mk.injEq, FileStream.mk.injEq,
        Option.some.injEq, true_and, and_true, count_trailing_zeros_two_pow,
        hmask_pos, hmask_E, hmod, hmodE]
      omega
    | some d =>
      have hfull : (pos + len) % W64 - pos = file_len := by
        have := hdig rfl
        rwa [hEeq, ← hmodE] at this
      dsimp only [Option.isSome_some, ChecksummedDataSource.write_digest_result]
      rw [if_pos rfl]
      rw [if_neg (show ¬((pos + len) % W64 - pos < file_len) by omega)]
      rw [if_neg (show ¬(true = false) by simp)]
      rw [if_pos rfl]
      dsimp only [Except.map]
      rw [constructedState, hEeq]
      simp only [Except.ok.injEq, ChecksummedDataSource.mk.injEq, FileStream.mk.injEq,
        Option.some.injEq, true_and, and_true, count_trailing_zeros_two_pow,
        hmask_pos, hmask_E, hmod, hmodE]
      omega



/-- The state produced by a construction over an empty range (`len == 0` or
`pos == file_len`): no digest bookkeeping, no stream. -/
def emptyRangeState (file : List Nat) (file_len : Nat) (cksum : Checksum)
    (algo : ChecksumUtils) (pos : Nat) (digest : Option Nat) (slotp : Bool)
    (k : Nat) : ChecksummedDataSource := {
  file := file
  checksum := cksum
  algo := algo
  expected_digest := digest
  actual_digest := algo.init_checksum
  digest_result_provided := slotp
  digest_result := none
  digest_result_writes := 0
  chunk_size_trailing_zeros := k
  file_len := file_len
  underlying_pos := 0
  pos := pos
  beg_pos := pos
  end_pos := pos
  input_stream := none }

theorem construct_empty {file : List Nat} {file_len : Nat} {cksum : Checksum}
    {algo : ChecksumUtils} {pos len : Nat} {digest : Option Nat} {slotp : Bool}
    {k : Nat} (hcs : cksum.chunk_size = 2 ^ k) (hpos : pos ≤ file_len)
    (hempty : len = 0 ∨ pos = file_len) :
    ChecksummedDataSource.construct file file_len cksum algo pos len digest slotp =
      .ok (emptyRangeState file file_len cksum algo pos digest slotp k) := by
  unfold ChecksummedDataSource.construct
  rw [hcs]
  rw [if_neg (by push_neg; exact ⟨by positivity, two_pow_and_self_sub_one k⟩)]
  simp only
  rw [if_neg (by omega : ¬ pos > file_len)]
  rw [if_pos hempty]
  rw [emptyRangeState]
  simp [count_trailing_zeros_two_pow]

theorem construct_beyond {file : List Nat} {file_len : Nat} {cksum : Checksum}
    {algo : ChecksumUtils} {pos len : Nat} {digest : Option Nat} {slotp : Bool}
    {k : Nat} (hcs : cksum.chunk_size = 2 ^ k) (hpos : pos > file_len) :
    ChecksummedDataSource.construct file file_len cksum algo pos len digest slotp =
      .error (.internal "attempt to read beyond end") := by
  unfold ChecksummedDataSource.construct
  rw [hcs]
  rw [if_neg (by push_neg; exact ⟨by positivity, two_pow_and_self_sub_one k⟩)]
  simp only
  rw [if_pos hpos]

/-- A digest check over a non-empty proper sub-range fails at construction. -/
theorem construct_digest_partial_read {file : List Nat} {file_len : Nat}
    {cksum : Checksum} {algo : ChecksumUtils} {pos len d : Nat} {slotp : Bool}
    {k : Nat} (hcs : cksum.chunk_size = 2 ^ k)
    (hpos : pos ≤ file_len) (hW : file_len < W64)
    (hlen : len ≠ 0) (hpf : pos ≠ file_len)
    (hpart : min (pos + len) file_len - pos < file_len) :
    ChecksummedDataSource.construct file file_len cksum algo pos len (some d) slotp =
      .error (.internal "Cannot check digest with a partial read") := by
  unfold ChecksummedDataSource.construct
  rw [hcs]
  rw [if_neg (by push_neg; exact ⟨by positivity, two_pow_and_self_sub_one k⟩)]
  simp only
  rw [if_neg (by omega : ¬ pos > file_len)]
  rw [if_neg (by push_neg; exact ⟨hlen, hpf⟩)]
  by_cases hclamp : len > file_len - pos
  · rw [if_pos hclamp]
    dsimp only [Option.isSome_some]
    rw [if_pos rfl]
    rw [if_pos (by
      have : min (pos + len) file_len = file_len := min_eq_right (by omega)
      omega)]
  · rw [if_neg hclamp]
    dsimp only [Option.isSome_some]
    rw [if_pos rfl]
    rw [if_pos (by
      have h1 : pos + len ≤ file_len := by omega
      have h2 : (pos + len) % W64 = pos + len := Nat.mod_eq_of_lt (by omega)
      have h3 : min (pos + len) file_len = pos + len := min_eq_left h1
      omega)]

/-- A digest check over the whole file but with a null result slot fails at
construction (this check precedes the unconditional slot store). -/
theorem construct_digest_noslot {file : List Nat} {file_len : Nat}
    {cksum : Checksum} {algo : ChecksumUtils} {pos len d : Nat} {k : Nat}
    (hcs : cksum.chunk_size = 2 ^ k)
    (hpos : pos ≤ file_len) (hW : file_len < W64)
    (hlen : len ≠ 0) (hpf : pos ≠ file_len)
    (hfull : min (pos + len) file_len - pos = file_len) :
    ChecksummedDataSource.construct file file_len cksum algo pos len (some d) false =
      .error (.internal "Requested digest check but no output parameter was provided.") := by
  unfold ChecksummedDataSource.construct
  rw [hcs]
  rw [if_neg (by push_neg; exact ⟨by positivity, two_pow_and_self_sub_one k⟩)]
  simp only
  rw [if_neg (by omega : ¬ pos > file_len)]
  rw [if_neg (by push_neg; exact ⟨hlen, hpf⟩)]
  by_cases hclamp : len > file_len - pos
  · rw [if_pos hclamp]
    dsimp only [Option.isSome_some]
    rw [if_pos rfl]
    rw [if_neg (by
      have : min (pos + len) file_len = file_len := min_eq_right (by omega)
      omega)]
    rw [if_pos rfl]
  · rw [if_neg hclamp]
    dsimp only [Option.isSome_some]
    rw [if_pos rfl]
    rw [if_neg (by
      have h1 : pos + len ≤ file_len := by omega
      have h2 : (pos + len) % W64 = pos + len := Nat.mod_eq_of_lt (by omega)
      have h3 : min (pos + len) file_len = pos + len := min_eq_left h1
      omega)]
    rw [if_pos rfl]

/-- Without a digest check nothing guards the slot store at the end of the
constructor: a null slot plus a non-empty range hits undefined behaviour. -/
theorem construct_nullwrite {file : List Nat} {file_len : Nat}
    {cksum : Checksum} {algo : ChecksumUtils} {pos len : Nat} {k : Nat}
    (hcs : cksum.chunk_size = 2 ^ k)
    (hpos : pos ≤ file_len)
    (hlen : len ≠ 0) (hpf : pos ≠ file_len) :
    ChecksummedDataSource.construct file file_len cksum algo pos len none false =
      .error .nullWrite := by
  unfold ChecksummedDataSource.construct
  rw [hcs]
  rw [if_neg (by push_neg; exact ⟨by positivity, two_pow_and_self_sub_one k⟩)]
  simp only
  rw [if_neg (by omega : ¬ pos > file_len)]
  rw [if_neg (by push_neg; exact ⟨hlen, hpf⟩)]
  by_cases hclamp : len > file_len - pos
  · rw [if_pos hclamp]
    dsimp only [Option.isSome_none, ChecksummedDataSource.write_digest_result]
    rw [if_neg (show ¬(false = true) by simp)]
    rw [if_neg (show ¬(false = true) by simp)]
    rfl
  · rw [if_neg hclamp]
    dsimp only [Option.isSome_none, ChecksummedDataSource.write_digest_result]
    rw [if_neg (show ¬(false = true) by simp)]
    rw [if_neg (show ¬(false = true) by simp)]
    rfl

theorem inv_constructedState {file : List Nat} {file_len : Nat} {cksum : Checksum}
    {algo : ChecksumUtils} {pos : Nat} {digest : Option Nat} {k E : Nat}
    (hcs : cksum.chunk_size = 2 ^ k)
    (hflen : file_len = file.length) (hbound : file_len + 2 ^ k < W64)
    (hE : E ≤ file_len) :
    Inv (constructedState file file_len cksum algo pos digest k E) k :=
  ⟨hcs, rfl, hflen, hE, hbound, fun _ => Or.inl rfl, fun _ => ⟨_, rfl, rfl, rfl, rfl⟩⟩

theorem inv_emptyRangeState {file : List Nat} {file_len : Nat} {cksum : Checksum}
    {algo : ChecksumUtils} {pos : Nat} {digest : Option Nat} {slotp : Bool} {k : Nat}
    (hcs : cksum.chunk_size = 2 ^ k)
    (hflen : file_len = file.length) (hbound : file_len + 2 ^ k < W64)
    (hpos : pos ≤ file_len) :
    Inv (emptyRangeState file file_len cksum algo pos digest slotp k) k :=
  ⟨hcs, rfl, hflen, hpos, hbound, fun h => absurd h (by simp [emptyRangeState]),
    fun h => absurd h (by simp [emptyRangeState])⟩

/-- Any successful construction establishes the reader invariant. -/
theorem construct_inv {file : List Nat} {file_len : Nat} {cksum : Checksum}
    {algo : ChecksumUtils} {pos len : Nat} {digest : Option Nat} {slotp : Bool}
    {s : ChecksummedDataSource} {k : Nat}
    (hcs : cksum.chunk_size = 2 ^ k)
    (hflen : file_len = file.length) (hbound : file_len + 2 ^ k < W64)
    (h : ChecksummedDataSource.construct file file_len cksum algo pos len digest slotp = .ok s) :
    Inv s k := by
  have hW : file_len < W64 := by omega
  by_cases hpos : pos ≤ file_len
  case neg =>
    rw [construct_beyond hcs (by omega)] at h
    cases h
  by_cases hempty : len = 0 ∨ pos = file_len
  · rw [construct_empty hcs hpos hempty] at h
    injection h with h
    subst h
    exact inv_emptyRangeState hcs hflen hbound hpos
  · push_neg at hempty
    obtain ⟨hlen, hpf⟩ := hempty
    have hE : min (pos + len) file_len ≤ file_len := Nat.min_le_right _ _
    cases digest with
    | none =>
      cases hslot : slotp with
      | false =>
        rw [hslot, construct_nullwrite hcs hpos hlen hpf] at h
        cases h
      | true =>
        rw [hslot, construct_ok hcs hpos hbound hlen hpf (by simp)] at h
        injection h with h
        subst h
        exact inv_constructedState hcs hflen hbound hE
    | some d =>
      by_cases hfull : min (pos + len) file_len - pos = file_len
      · cases hslot : slotp with
        | false =>
          rw [hslot, construct_digest_noslot hcs hpos hW hlen hpf hfull] at h
          cases h
        | true =>
          rw [hslot, construct_ok hcs hpos hbound hlen hpf (fun _ => hfull)] at h
          injection h with h
          subst h
          exact inv_constructedState hcs hflen hbound hE
      · rw [construct_digest_partial_read hcs hpos hW hlen hpf (by omega)] at h
        cases h

/-- The position reached after one successful `get` from state `s` with chunk
size `2^k`: the end of the chunk containing `pos`, clipped at the physical end
of the file. -/
def nextPos (s : ChecksummedDataSource) (k : Nat) : Nat :=
  min (s.pos / 2 ^ k * 2 ^ k + 2 ^ k) s.file_len

/-- Closed form of `get` on a live (`pos < end_pos`) state satisfying the
reader invariant: read the chunk containing `pos`, fail on a checksum
mismatch, otherwise trim, advance, and perform the end-of-file digest
bookkeeping. -/
theorem get_eq_of_inv {s : ChecksummedDataSource} {k : Nat}
    (hInv : Inv s k) (hlt : s.pos < s.end_pos) :
    s.get =
      (let buf := chunkAt s.file (2 ^ k) (s.pos / 2 ^ k)
       let expected := s.checksum.checksums.getD (s.pos / 2 ^ k) 0
       let actual := s.algo.checksum buf
       if expected ≠ actual then
         .error (.malformed buf.length s.underlying_pos expected actual)
       else
         let trimmed := (s.file.drop s.pos).take (nextPos s k - s.pos)
         let s1 : ChecksummedDataSource := { s with
           input_stream := some ⟨nextPos s k, s.end_pos / 2 ^ k * 2 ^ k + 2 ^ k⟩
           actual_digest :=
             if s.expected_digest.isSome then
               s.algo.checksum_combine_or_feed s.actual_digest actual buf
             else s.actual_digest
           pos := nextPos s k
           underlying_pos := s.pos / 2 ^ k * 2 ^ k + 2 ^ k }
         match s.expected_digest with
         | some ed =>
           if nextPos s k = s.file_len then
             if ed ≠ s1.actual_digest then
               (s1.write_digest_result
                 ⟨.invalid, some ("Digest mismatch: expected=" ++ toString ed ++
                   ", actual=" ++ toString s1.actual_digest)⟩).map
                 (fun s2 => (trimmed, s2))
             else
               (s1.write_digest_result ⟨.valid, none⟩).map (fun s2 => (trimmed, s2))
           else
             .ok (trimmed, s1)
         | none => .ok (trimmed, s1)) := by
  obtain ⟨st, hst, hoff, hupos, hhi⟩ := hInv.stream hlt
  have hcs0 : 0 < 2 ^ k := Nat.pos_pow_of_pos _ (by omega)
  have hoff_le : s.pos / 2 ^ k * 2 ^ k ≤ s.pos := Nat.div_mul_le_self _ _
  have hoff_gt : s.pos < s.pos / 2 ^ k * 2 ^ k + 2 ^ k := Nat.lt_div_mul_add hcs0
  have hdivmono : s.pos / 2 ^ k * 2 ^ k ≤ s.end_pos / 2 ^ k * 2 ^ k :=
    Nat.mul_le_mul_right _ (Nat.div_le_div_right (le_of_lt hlt))
  have hend_le : s.end_pos ≤ s.file_len := hInv.end_le
  have hflen : s.end_pos ≤ s.file.length := hInv.flen_eq ▸ hInv.end_le
  have hposlen : s.pos < s.file.length := lt_of_lt_of_le hlt hflen
  unfold ChecksummedDataSource.get
  rw [hInv.cs_eq]
  rw [if_neg (by omega : ¬ s.pos ≥ s.end_pos)]
  rw [if_neg (by
    rw [Nat.and_pow_two_sub_one_eq_mod]
    rcases hInv.align hlt with h | h
    · intro hc; exact hc.1 h
    · intro hc; exact hc.2 h)]
  rw [hst]
  dsimp only [FileStream.read_exactly]
  rw [hoff, hhi, hInv.ctz_eq, Nat.shiftRight_eq_div_pow]
  have hm0 : min (2 ^ k) (s.end_pos / 2 ^ k * 2 ^ k + 2 ^ k - s.pos / 2 ^ k * 2 ^ k)
      = 2 ^ k := by omega
  rw [hm0]
  have hbuflen : ((s.file.drop (s.pos / 2 ^ k * 2 ^ k)).take (2 ^ k)).length
      = min (2 ^ k) (s.file.length - s.pos / 2 ^ k * 2 ^ k) := by
    rw [List.length_take, List.length_drop]
  have hp1 : s.pos / 2 ^ k * 2 ^ k +
      ((s.file.drop (s.pos / 2 ^ k * 2 ^ k)).take (2 ^ k)).length = nextPos s k := by
    rw [hbuflen, nextPos, hInv.flen_eq]
    omega
  have htrim : ((s.file.drop (s.pos / 2 ^ k * 2 ^ k)).take (2 ^ k)).drop
        (s.pos &&& (2 ^ k - 1))
      = (s.file.drop s.pos).take (nextPos s k - s.pos) := by
    rw [Nat.and_pow_two_sub_one_eq_mod]
    rw [List.drop_take, List.drop_drop]
    have hdd : s.pos / 2 ^ k * 2 ^ k + s.pos % 2 ^ k = s.pos := Nat.div_add_mod' _ _
    rw [show s.pos / 2 ^ k * 2 ^ k + s.pos % 2 ^ k = s.pos from hdd]
    rw [List.take_eq_take]
    rw [List.length_drop]
    rw [nextPos, hInv.flen_eq]
    omega
  have htrimlen : ((s.file.drop s.pos).take (nextPos s k - s.pos)).length
      = nextPos s k - s.pos := by
    rw [List.length_take, List.length_drop, nextPos, hInv.flen_eq]
    omega
  rw [htrim]
  have hposadd : s.pos + ((s.file.drop s.pos).take (nextPos s k - s.pos)).length
      = nextPos s k := by
    rw [htrimlen]
    have : s.pos ≤ nextPos s k := by rw [nextPos]; omega
    omega
  rw [hposadd, hupos, hoff, hp1]
  rfl

/-- `get` on an exhausted reader returns the empty buffer and leaves the state
unchanged. -/
theorem get_term {s : ChecksummedDataSource} (h : s.end_pos ≤ s.pos) :
    s.get = .ok ([], s) := by
  unfold ChecksummedDataSource.get
  rw [if_pos (by omega : s.pos ≥ s.end_pos)]

theorem digest_msg_ne_empty (a b : String) :
    ("Digest mismatch: expected=" ++ a ++ ", actual=" ++ b) ≠ "" := by
  intro h
  have h2 := congrArg String.length h
  rw [String.length_append, String.length_append, String.length_append] at h2
  have h3 : ("Digest mismatch: expected=" : String).length = 26 := rfl
  have h4 : ("" : String).length = 0 := rfl
  omega

/-- What one successful pull changes, stated for the successor state `s1`. -/
structure GetStep (s s1 : ChecksummedDataSource) (k : Nat) : Prop where
  pos_eq : s1.pos = nextPos s k
  pos_gt : s.pos < nextPos s k
  file_eq : s1.file = s.file
  ck_eq : s1.checksum = s.checksum
  algo_eq : s1.algo = s.algo
  flen_eq : s1.file_len = s.file_len
  end_eq : s1.end_pos = s.end_pos
  dig_eq : s1.expected_digest = s.expected_digest
  prov_eq : s1.digest_result_provided = s.digest_result_provided
  inv : Inv s1 k
  writes : s1.digest_result_writes = s.digest_result_writes +
    (if s.expected_digest.isSome = true ∧ nextPos s k = s.file_len then 1 else 0)
  slot_untouched : ¬(s.expected_digest.isSome = true ∧ nextPos s k = s.file_len) →
    s1.digest_result = s.digest_result
  slot_written : ∀ ed, s.expected_digest = some ed → nextPos s k = s.file_len →
    (ed = s1.actual_digest → s1.digest_result = some ⟨.valid, none⟩) ∧
    (ed ≠ s1.actual_digest →
      ∃ m, s1.digest_result = some ⟨.invalid, some m⟩ ∧ m ≠ "")

theorem nextPos_gt {s : ChecksummedDataSource} {k : Nat}
    (hInv : Inv s k) (hlt : s.pos < s.end_pos) : s.pos < nextPos s k := by
  have hcs0 : 0 < 2 ^ k := Nat.pos_pow_of_pos _ (by omega)
  have h1 : s.pos < s.pos / 2 ^ k * 2 ^ k + 2 ^ k := Nat.lt_div_mul_add hcs0
  have h2 : s.end_pos ≤ s.file_len := hInv.end_le
  rw [nextPos]
  omega

theorem nextPos_align {s : ChecksummedDataSource} {k : Nat}
    (hInv : Inv s k) (hne : nextPos s k < s.end_pos) :
    nextPos s k = (s.pos / 2 ^ k + 1) * 2 ^ k := by
  have h2 : s.end_pos ≤ s.file_len := hInv.end_le
  have h3 : (s.pos / 2 ^ k + 1) * 2 ^ k = s.pos / 2 ^ k * 2 ^ k + 2 ^ k := by ring
  rw [nextPos] at *
  omega

/-- The state after the cursor/stream advance of a successful pull satisfies
the invariant, whatever happened to the digest bookkeeping fields. -/
theorem inv_step_record {s : ChecksummedDataSource} {k : Nat}
    (hInv : Inv s k) (exd : Option Nat) (A : Nat)
    (dp : Bool) (dr : Option digest_validation_result) (drw : Nat) :
    Inv { s with
          input_stream := some ⟨nextPos s k, s.end_pos / 2 ^ k * 2 ^ k + 2 ^ k⟩,
          expected_digest := exd,
          actual_digest := A,
          pos := nextPos s k,
          underlying_pos := s.pos / 2 ^ k * 2 ^ k + 2 ^ k,
          digest_result_provided := dp,
          digest_result := dr,
          digest_result_writes := drw } k := by
  have hcs0 : 0 < 2 ^ k := Nat.pos_pow_of_pos _ (by omega)
  refine ⟨hInv.cs_eq, hInv.ctz_eq, hInv.flen_eq, hInv.end_le, hInv.bound, ?_, ?_⟩
  · intro h
    right
    rw [nextPos_align hInv h, Nat.mul_mod_left]
  · intro h
    refine ⟨_, rfl, ?_, ?_, rfl⟩
    · rw [nextPos_align hInv h, Nat.mul_div_cancel _ hcs0]
    · rw [nextPos_align hInv h]
      ring

theorem get_step {s : ChecksummedDataSource} {k : Nat}
    (hInv : Inv s k) (hlt : s.pos < s.end_pos)
    (hU : Uncorrupted s.file s.checksum s.algo)
    (hdp : s.expected_digest.isSome = true → s.digest_result_provided = true) :
    ∃ s1, s.get = .ok ((s.file.drop s.pos).take (nextPos s k - s.pos), s1) ∧
      GetStep s s1 k := by
  have hcs0 : 0 < 2 ^ k := Nat.pos_pow_of_pos _ (by omega)
  have hposlen : s.pos < s.file.length :=
    lt_of_lt_of_le hlt (hInv.flen_eq ▸ hInv.end_le)
  have hmatch : s.checksum.checksums.getD (s.pos / 2 ^ k) 0
      = s.algo.checksum (chunkAt s.file (2 ^ k) (s.pos / 2 ^ k)) := by
    have hidx : s.pos / 2 ^ k < num_chunks s.file.length s.checksum.chunk_size := by
      rw [hInv.cs_eq, lt_num_chunks_iff hcs0]
      have := Nat.div_mul_le_self s.pos (2 ^ k)
      omega
    have := hU (s.pos / 2 ^ k) hidx
    rwa [hInv.cs_eq] at this
  rw [get_eq_of_inv hInv hlt]
  dsimp only
  rw [if_neg (by rw [hmatch]; simp)]
  cases hd : s.expected_digest with
  | none =>
    simp only [Option.isSome_none, Bool.false_eq_true, if_false]
    refine ⟨_, rfl, ?_⟩
    refine ⟨rfl, nextPos_gt hInv hlt, rfl, rfl, rfl, rfl, rfl, hd.symm, rfl,
      inv_step_record hInv _ _ _ _ _, ?_, ?_, ?_⟩
    · simp [hd]
    · intro _; rfl
    · intro ed hed; rw [hd] at hed; cases hed
  | some ed =>
    have hprov : s.digest_result_provided = true := hdp (by rw [hd]; rfl)
    simp only [Option.isSome_some, if_true]
    by_cases hfl : nextPos s k = s.file_len
    · rw [if_pos hfl]
      dsimp only [ChecksummedDataSource.write_digest_result]
      rw [hprov]
      by_cases hmm : ed = s.algo.checksum_combine_or_feed s.actual_digest
          (s.algo.checksum (chunkAt s.file (2 ^ k) (s.pos / 2 ^ k)))
          (chunkAt s.file (2 ^ k) (s.pos / 2 ^ k))
      · rw [if_neg (by simp [hmm])]
        rw [if_pos rfl]
        refine ⟨_, rfl, ?_⟩
        refine ⟨rfl, nextPos_gt hInv hlt, rfl, rfl, rfl, rfl, rfl, hd.symm, hprov.symm,
          inv_step_record hInv _ _ _ _ _, ?_, ?_, ?_⟩
        · simp [hd, hfl]
        · intro hn
          exact absurd ⟨by rw [hd]; rfl, hfl⟩ hn
        · intro ed' hed _
          rw [hd] at hed
          injection hed with hh
          subst hh
          refine ⟨fun _ => rfl, fun hne => absurd hmm hne⟩
      · rw [if_pos hmm]
        rw [if_pos rfl]
        refine ⟨_, rfl, ?_⟩
        refine ⟨rfl, nextPos_gt hInv hlt, rfl, rfl, rfl, rfl, rfl, hd.symm, hprov.symm,
          inv_step_record hInv _ _ _ _ _, ?_, ?_, ?_⟩
        · simp [hd, hfl]
        · intro hn
          exact absurd ⟨by rw [hd]; rfl, hfl⟩ hn
        · intro ed' hed _
          rw [hd] at hed
          injection hed with hh
          subst hh
          refine ⟨fun hq => absurd hq hmm, fun _ => ⟨_, rfl, digest_msg_ne_empty _ _⟩⟩
    · rw [if_neg hfl]
      refine ⟨_, rfl, ?_⟩
      refine ⟨rfl, nextPos_gt hInv hlt, rfl, rfl, rfl, rfl, rfl, hd.symm, rfl,
        inv_step_record hInv _ _ _ _ _, ?_, ?_, ?_⟩
      · simp [hd, hfl]
      · intro _; rfl
      · intro ed' hed hnp
        exact absurd hnp hfl



/-- A successful pull preserves the reader invariant (no assumption that the
file is uncorrupted: success of the pull itself is enough). -/
theorem get_inv {s s1 : ChecksummedDataSource} {k : Nat} {buf : List Nat}
    (hInv : Inv s k) (h : s.get = .ok (buf, s1)) : Inv s1 k := by
  by_cases hlt : s.pos < s.end_pos
  · rw [get_eq_of_inv hInv hlt] at h
    dsimp only at h
    by_cases hbad : s.checksum.checksums.getD (s.pos / 2 ^ k) 0
        ≠ s.algo.checksum (chunkAt s.file (2 ^ k) (s.pos / 2 ^ k))
    · rw [if_pos hbad] at h
      cases h
    · rw [if_neg hbad] at h
      cases hd : s.expected_digest with
      | none =>
        rw [hd] at h
        simp only [Option.isSome_none, Bool.false_eq_true, if_false] at h
        injection h with h1
        injection h1 with hbuf hs1
        subst hs1
        exact inv_step_record hInv _ _ _ _ _
      | some ed =>
        rw [hd] at h
        simp only [Option.isSome_some, if_true] at h
        by_cases hfl : nextPos s k = s.file_len
        · rw [if_pos hfl] at h
          dsimp only [ChecksummedDataSource.write_digest_result] at h
          by_cases hprov : s.digest_result_provided = true
          · rw [hprov] at h
            rw [if_pos rfl] at h
            by_cases hmm : ed ≠ s.algo.checksum_combine_or_feed s.actual_digest
                (s.algo.checksum (chunkAt s.file (2 ^ k) (s.pos / 2 ^ k)))
                (chunkAt s.file (2 ^ k) (s.pos / 2 ^ k))
            · rw [if_pos hmm] at h
              dsimp only [Except.map] at h
              injection h with h1
              injection h1 with hbuf hs1
              subst hs1
              exact inv_step_record hInv _ _ _ _ _
            · rw [if_neg hmm] at h
              dsimp only [Except.map] at h
              injection h with h1
              injection h1 with hbuf hs1
              subst hs1
              exact inv_step_record hInv _ _ _ _ _
          · rw [Bool.not_eq_true] at hprov
            rw [hprov] at h
            simp only [Bool.false_eq_true, if_false] at h
            dsimp only [Except.map] at h
            split at h <;> cases h
        · rw [if_neg hfl] at h
          injection h with h1
          injection h1 with hbuf hs1
          subst hs1
          exact inv_step_record hInv _ _ _ _ _
  · rw [get_term (by omega)] at h
    injection h with h1
    injection h1 with hbuf hs1
    subst hs1
    exact hInv

/-- Closed form of a successful `skip` that does not land exactly on
`end_pos`: the cursor advances by `n`, `beg_pos` is reset, and the underlying
stream is advanced to the chunk boundary below the new position. -/
theorem skip_eq_of_inv {s : ChecksummedDataSource} {k n : Nat}
    (hInv : Inv s k) (hdig : s.expected_digest = none)
    (hn : s.pos + n < s.end_pos) :
    ∃ st, s.input_stream = some st ∧
      s.skip n = .ok { s with
        pos := s.pos + n
        beg_pos := s.pos + n
        underlying_pos := (s.pos + n) / 2 ^ k * 2 ^ k
        input_stream := some ⟨(s.pos + n) / 2 ^ k * 2 ^ k, st.hi⟩ } := by
  have hlt : s.pos < s.end_pos := by omega
  obtain ⟨st, hst, hoff, hupos, hhi⟩ := hInv.stream hlt
  have hcs0 : 0 < 2 ^ k := Nat.pos_pow_of_pos _ (by omega)
  have hk64 : k ≤ 64 := pow_le_64_of_bound hInv.bound
  have hend_le : s.end_pos ≤ s.file_len := hInv.end_le
  have hbound := hInv.bound
  have hmask : (s.pos + n) &&& (W64 - 2 ^ k) = (s.pos + n) / 2 ^ k * 2 ^ k :=
    and_w64_sub_two_pow (by omega) hk64
  have hmono1 : s.pos / 2 ^ k * 2 ^ k ≤ (s.pos + n) / 2 ^ k * 2 ^ k :=
    Nat.mul_le_mul_right _ (Nat.div_le_div_right (by omega))
  have hmono2 : (s.pos + n) / 2 ^ k * 2 ^ k ≤ s.end_pos / 2 ^ k * 2 ^ k :=
    Nat.mul_le_mul_right _ (Nat.div_le_div_right (by omega))
  refine ⟨st, hst, ?_⟩
  unfold ChecksummedDataSource.skip
  rw [hdig, hInv.cs_eq]
  rw [if_neg (by simp)]
  rw [if_neg (by omega : ¬ s.pos + n > s.end_pos)]
  dsimp only
  rw [if_neg (by omega : ¬ s.pos + n = s.end_pos)]
  rw [hst]
  dsimp only [FileStream.skip]
  rw [hmask, hupos, hoff, hhi]
  have hminn : min ((s.pos + n) / 2 ^ k * 2 ^ k - s.pos / 2 ^ k * 2 ^ k)
      (s.end_pos / 2 ^ k * 2 ^ k + 2 ^ k - s.pos / 2 ^ k * 2 ^ k)
      = (s.pos + n) / 2 ^ k * 2 ^ k - s.pos / 2 ^ k * 2 ^ k := by omega
  rw [hminn]
  have h1 : s.pos / 2 ^ k * 2 ^ k +
      ((s.pos + n) / 2 ^ k * 2 ^ k - s.pos / 2 ^ k * 2 ^ k)
      = (s.pos + n) / 2 ^ k * 2 ^ k := by omega
  rw [h1]

/-- A `skip` that lands exactly on `end_pos` only moves the cursor. -/
theorem skip_to_end {s : ChecksummedDataSource} {n : Nat}
    (hdig : s.expected_digest = none)
    (hn : s.pos + n = s.end_pos) :
    s.skip n = .ok { s with pos := s.pos + n } := by
  unfold ChecksummedDataSource.skip
  rw [hdig]
  rw [if_neg (by simp)]
  rw [if_neg (by omega : ¬ s.pos + n > s.end_pos)]
  dsimp only
  rw [if_pos hn]

/-- A successful `skip` preserves the reader invariant. -/
theorem skip_inv {s s1 : ChecksummedDataSource} {k n : Nat}
    (hInv : Inv s k) (h : s.skip n = .ok s1) : Inv s1 k := by
  have hcs0 : 0 < 2 ^ k := Nat.pos_pow_of_pos _ (by omega)
  by_cases hdig : s.expected_digest.isSome = true
  · unfold ChecksummedDataSource.skip at h
    rw [if_pos hdig] at h
    cases h
  · have hdig2 : s.expected_digest = none := by
      cases hq : s.expected_digest
      · rfl
      · rw [hq] at hdig; simp at hdig
    clear hdig
    have hdig := hdig2
    by_cases hgt : s.pos + n > s.end_pos
    · unfold ChecksummedDataSource.skip at h
      rw [hdig] at h
      rw [if_neg (by simp)] at h
      rw [if_pos hgt] at h
      cases h
    · by_cases heq : s.pos + n = s.end_pos
      · rw [skip_to_end hdig heq] at h
        injection h with h1
        subst h1
        refine ⟨hInv.cs_eq, hInv.ctz_eq, hInv.flen_eq, hInv.end_le, hInv.bound, ?_, ?_⟩
        · intro hc
          dsimp only at hc
          exact absurd hc (by omega)
        · intro hc
          dsimp only at hc
          exact absurd hc (by omega)
      · obtain ⟨st, hst, heq2⟩ := skip_eq_of_inv (n := n) hInv hdig (by omega)
        rw [heq2] at h
        injection h with h1
        subst h1
        obtain ⟨st0, hst0, hoff0, hupos0, hhi0⟩ := hInv.stream (by omega)
        have hst' : st = st0 := by
          rw [hst] at hst0
          exact Option.some.inj hst0
        subst hst'
        refine ⟨hInv.cs_eq, hInv.ctz_eq, hInv.flen_eq, hInv.end_le, hInv.bound,
          fun _ => Or.inl rfl, fun _ => ⟨_, rfl, rfl, rfl, hhi0⟩⟩

/-- Where the pull loop stops: the first chunk-end (clipped at the physical
end of the file) at or past `end_pos`.  Because `get` only trims the front of
a chunk, the loop overshoots an `end_pos` that is not chunk-aligned. -/
def finalPos (s : ChecksummedDataSource) (k : Nat) : Nat :=
  if s.end_pos ≤ s.pos then s.pos
  else min ((s.end_pos - 1) / 2 ^ k * 2 ^ k + 2 ^ k) s.file_len

theorem finalPos_term {s : ChecksummedDataSource} {k : Nat}
    (h : s.end_pos ≤ s.pos) : finalPos s k = s.pos := by
  rw [finalPos, if_pos h]

theorem finalPos_congr {s s' : ChecksummedDataSource} {k : Nat}
    (hend : s'.end_pos = s.end_pos) (hflen : s'.file_len = s.file_len)
    (h1 : s.pos < s.end_pos) (h2 : s'.pos < s'.end_pos) :
    finalPos s' k = finalPos s k := by
  rw [finalPos, finalPos, if_neg (by omega), if_neg (by omega), hend, hflen]

theorem div_mul_add_sub_one_div {a b : Nat} (hb : 0 < b) :
    (a / b * b + (b - 1)) / b = a / b := by
  rw [Nat.mul_comm (a / b) b, Nat.mul_add_div hb]
  have h0 : (b - 1) / b = 0 := Nat.div_eq_of_lt (by omega)
  omega

/-- If the chunk read from `pos` reaches `end_pos`, the loop stops exactly at
`nextPos`. -/
theorem finalPos_eq_nextPos {s : ChecksummedDataSource} {k : Nat}
    (hlt : s.pos < s.end_pos) (hge : s.end_pos ≤ nextPos s k) :
    finalPos s k = nextPos s k := by
  have hcs0 : 0 < 2 ^ k := Nat.pos_pow_of_pos _ (by omega)
  have hoff_le : s.pos / 2 ^ k * 2 ^ k ≤ s.pos := Nat.div_mul_le_self _ _
  have hnle : nextPos s k ≤ s.pos / 2 ^ k * 2 ^ k + 2 ^ k := by
    rw [nextPos]; omega
  have hdd : (s.end_pos - 1) / 2 ^ k = s.pos / 2 ^ k := by
    have h1 : s.pos / 2 ^ k ≤ (s.end_pos - 1) / 2 ^ k :=
      Nat.div_le_div_right (by omega)
    have h2 : (s.end_pos - 1) / 2 ^ k ≤
        (s.pos / 2 ^ k * 2 ^ k + (2 ^ k - 1)) / 2 ^ k :=
      Nat.div_le_div_right (by omega)
    rw [div_mul_add_sub_one_div hcs0] at h2
    omega
  rw [finalPos, if_neg (by omega), hdd, nextPos]

/-- If the chunk read from `pos` does not reach `end_pos`, the stopping point
is still ahead of `nextPos`. -/
theorem nextPos_le_finalPos {s : ChecksummedDataSource} {k : Nat}
    (hInv : Inv s k) (hlt : nextPos s k < s.end_pos) :
    nextPos s k ≤ finalPos s k := by
  have hcs0 : 0 < 2 ^ k := Nat.pos_pow_of_pos _ (by omega)
  have hend_le : s.end_pos ≤ s.file_len := hInv.end_le
  have hoff_le : s.pos / 2 ^ k * 2 ^ k ≤ s.pos := Nat.div_mul_le_self _ _
  have hoff_gt : s.pos < s.pos / 2 ^ k * 2 ^ k + 2 ^ k := Nat.lt_div_mul_add hcs0
  have hmin : nextPos s k = min (s.pos / 2 ^ k * 2 ^ k + 2 ^ k) s.file_len := rfl
  have hpos_lt : s.pos < s.end_pos := by omega
  have h2 : s.pos / 2 ^ k ≤ (s.end_pos - 1) / 2 ^ k := Nat.div_le_div_right (by omega)
  have h3 := Nat.mul_le_mul_right (2 ^ k) h2
  rw [finalPos, if_neg (by omega)]
  omega

/-- If the requested range runs to the physical end of the file, the loop
stops exactly there. -/
theorem finalPos_eq_file_len {s : ChecksummedDataSource} {k : Nat}
    (hlt : s.pos < s.end_pos) (hend : s.end_pos = s.file_len) :
    finalPos s k = s.file_len := by
  have hcs0 : 0 < 2 ^ k := Nat.pos_pow_of_pos _ (by omega)
  have h1 : s.end_pos - 1 < (s.end_pos - 1) / 2 ^ k * 2 ^ k + 2 ^ k :=
    Nat.lt_div_mul_add hcs0
  rw [finalPos, if_neg (by omega)]
  omega



/-- What a completed pull loop guarantees about the final state `s'` relative
to the starting state `s`. -/
structure RunOut (s s' : ChecksummedDataSource) (k : Nat) : Prop where
  pos_eq : s'.pos = finalPos s k
  terminal : s.end_pos ≤ s.pos → s' = s
  file_eq : s'.file = s.file
  flen_eq : s'.file_len = s.file_len
  end_eq : s'.end_pos = s.end_pos
  dig_eq : s'.expected_digest = s.expected_digest
  writes : s'.digest_result_writes = s.digest_result_writes +
    (if s.expected_digest.isSome = true ∧ s.pos < s.end_pos ∧
        finalPos s k = s.file_len then 1 else 0)
  slot_untouched : ¬(s.expected_digest.isSome = true ∧ s.pos < s.end_pos ∧
      finalPos s k = s.file_len) → s'.digest_result = s.digest_result
  slot_written : ∀ ed, s.expected_digest = some ed → s.pos < s.end_pos →
    finalPos s k = s.file_len →
    (ed = s'.actual_digest → s'.digest_result = some ⟨.valid, none⟩) ∧
    (ed ≠ s'.actual_digest →
      ∃ m, s'.digest_result = some ⟨.invalid, some m⟩ ∧ m ≠ "")

/-- Driving an uncorrupted reader with enough fuel: the loop terminates
normally and delivers exactly the logical bytes `[pos, finalPos)`. -/
theorem readAll_spec {k : Nat} : ∀ (fuel : Nat) (s : ChecksummedDataSource),
    Inv s k → Uncorrupted s.file s.checksum s.algo →
    (s.expected_digest.isSome = true → s.digest_result_provided = true) →
    s.end_pos - s.pos < fuel →
    ∃ s', readAll fuel s =
        .ok ((s.file.drop s.pos).take (finalPos s k - s.pos), s') ∧
      RunOut s s' k := by
  intro fuel
  induction fuel with
  | zero => intro s _ _ _ hf; omega
  | succ fuel ih =>
    intro s hInv hU hdp hf
    by_cases hlt : s.pos < s.end_pos
    case neg =>
      refine ⟨s, ?_, ?_⟩
      · rw [readAll, get_term (by omega)]
        dsimp only [bind, Except.bind, List.isEmpty]
        rw [if_pos rfl, finalPos_term (by omega), Nat.sub_self, List.take_zero]
      · exact ⟨finalPos_term (by omega) |>.symm, fun _ => rfl, rfl, rfl, rfl, rfl,
          by simp [hlt], fun _ => rfl, fun _ _ hc _ => absurd hc hlt⟩
    case pos =>
      obtain ⟨s1, hget, hstep⟩ := get_step hInv hlt hU hdp
      have hbuflen : ((s.file.drop s.pos).take (nextPos s k - s.pos)).length
          = nextPos s k - s.pos := by
        rw [List.length_take, List.length_drop]
        have h1 : nextPos s k ≤ s.file_len := by rw [nextPos]; omega
        have h2 : s.file_len = s.file.length := hInv.flen_eq
        omega
      have hne : ((s.file.drop s.pos).take (nextPos s k - s.pos)).isEmpty = false := by
        rw [List.isEmpty_eq_false]
        intro hq
        have := hstep.pos_gt
        rw [hq] at hbuflen
        simp at hbuflen
        omega
      rw [readAll, hget]
      dsimp only [bind, Except.bind]
      rw [hne]
      simp only [Bool.false_eq_true, if_false]
      have hU1 : Uncorrupted s1.file s1.checksum s1.algo := by
        rw [hstep.file_eq, hstep.ck_eq, hstep.algo_eq]; exact hU
      have hdp1 : s1.expected_digest.isSome = true →
          s1.digest_result_provided = true := by
        rw [hstep.dig_eq, hstep.prov_eq]; exact hdp
      have hf1 : s1.end_pos - s1.pos < fuel := by
        rw [hstep.end_eq, hstep.pos_eq]
        have := hstep.pos_gt
        omega
      obtain ⟨s', hrest, hout⟩ := ih s1 hstep.inv hU1 hdp1 hf1
      by_cases hcase : s.end_pos ≤ nextPos s k
      · -- the chunk just read reached end_pos: the recursive run is empty
        have hterm : s1.end_pos ≤ s1.pos := by
          rw [hstep.end_eq, hstep.pos_eq]; exact hcase
        have hs' : s' = s1 := hout.terminal hterm
        rw [hs'] at hrest
        have hfp : finalPos s k = nextPos s k := finalPos_eq_nextPos hlt hcase
        refine ⟨s1, ?_, ?_⟩
        · rw [hrest, finalPos_term hterm, Nat.sub_self, List.take_zero]
          dsimp only
          rw [List.append_nil, hfp]
        · refine ⟨by rw [hstep.pos_eq, hfp], fun hc => absurd hlt (by omega),
            hstep.file_eq, hstep.flen_eq, hstep.end_eq, hstep.dig_eq, ?_, ?_, ?_⟩
          · rw [hstep.writes, hfp]
            congr 1
            by_cases hd : s.expected_digest.isSome = true
            · simp [hd, hlt]
            · simp [hd]
          · intro hc
            rw [hfp] at hc
            exact hstep.slot_untouched (by tauto)
          · intro ed hed _ hfl
            rw [hfp] at hfl
            exact hstep.slot_written ed hed hfl
      · -- more chunks to read
        push_neg at hcase
        have hlt1 : s1.pos < s1.end_pos := by
          rw [hstep.end_eq, hstep.pos_eq]; exact hcase
        have hfp : finalPos s1 k = finalPos s k :=
          finalPos_congr hstep.end_eq hstep.flen_eq hlt hlt1
        have hnple : nextPos s k ≤ finalPos s k := nextPos_le_finalPos hInv hcase
        have hdd : (s.file.drop s.pos).drop (nextPos s k - s.pos)
            = s.file.drop (nextPos s k) := by
          rw [List.drop_drop]
          congr 1
          have := hstep.pos_gt
          omega
        refine ⟨s', ?_, ?_⟩
        · rw [hrest, hstep.file_eq, hstep.pos_eq, hfp]
          dsimp only
          rw [← hdd, ← List.take_add]
          have harith : nextPos s k - s.pos + (finalPos s k - nextPos s k)
              = finalPos s k - s.pos := by
            have := hstep.pos_gt
            omega
          rw [harith]
        · have hpos' : s'.pos = finalPos s k := by rw [hout.pos_eq, hfp]
          refine ⟨hpos', fun hc => absurd hlt (by omega),
            by rw [hout.file_eq, hstep.file_eq],
            by rw [hout.flen_eq, hstep.flen_eq],
            by rw [hout.end_eq, hstep.end_eq],
            by rw [hout.dig_eq, hstep.dig_eq], ?_, ?_, ?_⟩
          · rw [hout.writes, hstep.writes, hstep.dig_eq, hstep.end_eq,
              hstep.pos_eq, hstep.flen_eq, hfp]
            have hnofl : ¬(s.expected_digest.isSome = true ∧ nextPos s k = s.file_len) := by
              rintro ⟨-, hq⟩
              have := hInv.end_le
              omega
            rw [if_neg hnofl]
            congr 1
            by_cases hd : s.expected_digest.isSome = true
            · by_cases hq : finalPos s k = s.file_len
              · simp [hd, hq, hlt, hcase]
              · simp [hd, hq]
            · simp [hd]
          · intro hc
            rw [hout.slot_untouched, hstep.slot_untouched]
            · rintro ⟨hd, hq⟩
              have := hInv.end_le
              omega
            · rw [hstep.dig_eq, hstep.end_eq, hstep.pos_eq, hstep.flen_eq, hfp]
              rintro ⟨hd, hq1, hq2⟩
              exact hc ⟨hd, hlt, hq2⟩
          · intro ed hed _ hfl
            refine hout.slot_written ed (by rw [hstep.dig_eq]; exact hed) hlt1 ?_
            rw [hfp, hstep.flen_eq]
            exact hfl

/-- Inversion of a successful construction: either the range was empty, or it
was non-empty, the result slot had to be non-null, and the state is the fully
initialized one. -/
theorem construct_cases {file : List Nat} {file_len : Nat} {cksum : Checksum}
    {algo : ChecksumUtils} {pos len : Nat} {digest : Option Nat} {slotp : Bool}
    {s : ChecksummedDataSource} {k : Nat}
    (hcs : cksum.chunk_size = 2 ^ k) (hbound : file_len + 2 ^ k < W64)
    (h : ChecksummedDataSource.construct file file_len cksum algo pos len digest slotp = .ok s) :
    pos ≤ file_len ∧
    ((len = 0 ∨ pos = file_len) ∧
        s = emptyRangeState file file_len cksum algo pos digest slotp k ∨
      len ≠ 0 ∧ pos ≠ file_len ∧ slotp = true ∧
        s = constructedState file file_len cksum algo pos digest k
          (min (pos + len) file_len)) := by
  have hW : file_len < W64 := by omega
  by_cases hpos : pos ≤ file_len
  case neg =>
    rw [construct_beyond hcs (by omega)] at h
    cases h
  refine ⟨hpos, ?_⟩
  by_cases hempty : len = 0 ∨ pos = file_len
  · rw [construct_empty hcs hpos hempty] at h
    injection h with h
    exact Or.inl ⟨hempty, h.symm⟩
  · push_neg at hempty
    obtain ⟨hlen, hpf⟩ := hempty
    refine Or.inr ⟨hlen, hpf, ?_⟩
    cases digest with
    | none =>
      cases hslot : slotp with
      | false =>
        rw [hslot, construct_nullwrite hcs hpos hlen hpf] at h
        cases h
      | true =>
        rw [hslot, construct_ok hcs hpos hbound hlen hpf (by simp)] at h
        injection h with h
        exact ⟨rfl, h.symm⟩
    | some d =>
      by_cases hfull : min (pos + len) file_len - pos = file_len
      · cases hslot : slotp with
        | false =>
          rw [hslot, construct_digest_noslot hcs hpos hW hlen hpf hfull] at h
          cases h
        | true =>
          rw [hslot, construct_ok hcs hpos hbound hlen hpf (fun _ => hfull)] at h
          injection h with h
          exact ⟨rfl, h.symm⟩
      · rw [construct_digest_partial_read hcs hpos hW hlen hpf (by omega)] at h
        cases h

/-- States reachable from `s` by any sequence of successful `get` and `skip`
calls. -/
inductive Reachable : ChecksummedDataSource → ChecksummedDataSource → Prop where
  | refl (s : ChecksummedDataSource) : Reachable s s
  | get {s t : ChecksummedDataSource} {buf : List Nat} {u : ChecksummedDataSource} :
      Reachable s t → t.get = .ok (buf, u) → Reachable s u
  | skip {s t : ChecksummedDataSource} {n : Nat} {u : ChecksummedDataSource} :
      Reachable s t → t.skip n = .ok u → Reachable s u

/-- The reader invariant holds in every reachable state. -/
theorem reachable_inv {s t : ChecksummedDataSource} {k : Nat}
    (hInv : Inv s k) (h : Reachable s t) : Inv t k := by
  induction h with
  | refl => exact hInv
  | get _ hg ih => exact get_inv ih hg
  | skip _ hs ih => exact skip_inv ih hs

/-- The position one past the last byte the reader delivers for the request
`[offset, offset + len)`: the requested end, rounded up to the next chunk
boundary and clipped at the end of the file.  (Empty requests deliver
nothing.) -/
def delivered_end (file_len chunk_size offset len : Nat) : Nat :=
  if len = 0 ∨ offset = file_len then offset
  else min ((min (offset + len) file_len - 1) / chunk_size * chunk_size + chunk_size)
    file_len

/-- A simple concrete checksum algorithm for the test fixtures: the checksum
of a chunk is the sum of its bytes, and the digest is the sum of the chunk
checksums. -/
def sumAlgo : ChecksumUtils where
  init_checksum := 0
  checksum := fun bytes => bytes.sum
  checksum_combine_or_feed := fun acc c _ => acc + c

/-- Concrete 8-byte file with chunk size 4 and a correct checksum table. -/
def file8 : List Nat := [10, 11, 12, 13, 14, 15, 16, 17]

def table8 : Checksum := ⟨4, [46, 62]⟩

/-- `table8` with the entry of chunk 0 corrupted. -/
def table8bad : Checksum := ⟨4, [99, 62]⟩

/-- C1, counterexample.  Requesting `offset = 0, len = 2` of the uncorrupted
8-byte file delivers the whole first chunk (4 bytes), not just the requested
2 bytes: `get` trims only the front of a chunk, never the tail, so bytes past
`offset + len` in the final partial chunk are delivered. -/
theorem C1_counterexample :
    ((ChecksummedDataSource.construct file8 8 table8 sumAlgo 0 2 none true).bind
        (fun s0 => (readAll 3 s0).map Prod.fst)) = .ok [10, 11, 12, 13] ∧
    Uncorrupted file8 table8 sumAlgo ∧
    [10, 11, 12, 13] ≠ (file8.drop 0).take 2 := by
  refine ⟨by rfl, by decide, by decide⟩

/-- C1, amended.  For every valid logical range over an uncorrupted file,
concatenating the buffers returned by sequential `get()` calls until the
first empty buffer yields exactly the logical bytes
`[offset, delivered_end)`, where `delivered_end` is `offset + len` (clipped
to the file length) rounded **up** to the containing chunk boundary and
clipped at the end of the file: the requested bytes are delivered as a
prefix, followed by the rest of the final chunk. -/
theorem C1_amended {file : List Nat} {cksum : Checksum} {algo : ChecksumUtils}
    {offset len k : Nat}
    (hcs : cksum.chunk_size = 2 ^ k)
    (hbound : file.length + 2 ^ k < W64)
    (hoff : offset ≤ file.length)
    (hU : Uncorrupted file cksum algo) :
    ∃ s0 s',
      ChecksummedDataSource.construct file file.length cksum algo offset len
        none true = .ok s0 ∧
      readAll (file.length + 1) s0 =
        .ok ((file.drop offset).take
          (delivered_end file.length cksum.chunk_size offset len - offset), s') ∧
      s'.pos = delivered_end file.length cksum.chunk_size offset len := by
  by_cases hempty : len = 0 ∨ offset = file.length
  · rw [construct_empty hcs hoff hempty]
    have hInv : Inv (emptyRangeState file file.length cksum algo offset none true k) k :=
      inv_emptyRangeState hcs rfl hbound hoff
    obtain ⟨s', hrun, hout⟩ := readAll_spec (file.length + 1)
      (emptyRangeState file file.length cksum algo offset none true k)
      hInv hU (by simp [emptyRangeState]) (by simp [emptyRangeState])
    have hde : delivered_end file.length cksum.chunk_size offset len = offset := by
      rw [delivered_end, if_pos hempty]
    have hfp : finalPos (emptyRangeState file file.length cksum algo offset none true k) k
        = offset := finalPos_term (by simp [emptyRangeState])
    refine ⟨_, s', rfl, ?_, ?_⟩
    · rw [hrun, hfp, hde]
      dsimp only [emptyRangeState]
    · rw [hout.pos_eq, hfp, hde]
  · push_neg at hempty
    obtain ⟨hlen, hpf⟩ := hempty
    rw [construct_ok hcs hoff hbound hlen hpf (by simp)]
    have hEle : min (offset + len) file.length ≤ file.length := Nat.min_le_right _ _
    have hInv : Inv (constructedState file file.length cksum algo offset none k
        (min (offset + len) file.length)) k :=
      inv_constructedState hcs rfl hbound hEle
    obtain ⟨s', hrun, hout⟩ := readAll_spec (file.length + 1) _ hInv hU
      (by simp [constructedState]) (by simp only [constructedState]; omega)
    have hoffE : offset < min (offset + len) file.length := by omega
    have hfp : finalPos (constructedState file file.length cksum algo offset none k
        (min (offset + len) file.length)) k
        = delivered_end file.length cksum.chunk_size offset len := by
      rw [finalPos, delivered_end,
        if_neg (by simp only [constructedState]; omega),
        if_neg (by push_neg; exact ⟨hlen, hpf⟩), hcs]
      dsimp only [constructedState]
    refine ⟨_, s', rfl, ?_, ?_⟩
    · rw [hrun, hfp]
      dsimp only [constructedState]
    · rw [hout.pos_eq, hfp]

theorem C1_amended_witness :
    table8.chunk_size = 2 ^ 2 ∧
    file8.length + 2 ^ 2 < W64 ∧
    1 ≤ file8.length ∧
    Uncorrupted file8 table8 sumAlgo ∧
    (∃ s0 s',
      ChecksummedDataSource.construct file8 file8.length table8 sumAlgo 1 2
        none true = .ok s0 ∧
      readAll (file8.length + 1) s0 =
        .ok ((file8.drop 1).take
          (delivered_end file8.length table8.chunk_size 1 2 - 1), s') ∧
      s'.pos = delivered_end file8.length table8.chunk_size 1 2) :=
  ⟨by decide, by decide, by decide, by decide,
    C1_amended (k := 2) (by decide) (by decide) (by decide) (by decide)⟩

/-- The spec's concrete scenario: a 10000-byte file (all bytes `7`) with
chunk size 4096 and the matching three-entry checksum table. -/
def c2file : List Nat := List.replicate 10000 7

def c2table : Checksum := ⟨4096, [28672, 28672, 12656]⟩

theorem c2file_length : c2file.length = 10000 := by
  rw [c2file, List.length_replicate]

theorem c2_uncorrupted : Uncorrupted c2file c2table sumAlgo := by
  intro i hi
  have hnum : num_chunks c2file.length c2table.chunk_size = 3 := by
    rw [c2file_length]
    decide
  rw [hnum] at hi
  have hchunk : ∀ j : Nat, chunkAt c2file c2table.chunk_size j
      = List.replicate (min 4096 (10000 - j * 4096)) 7 := by
    intro j
    rw [chunkAt, c2file]
    show (List.replicate 10000 7 |>.drop (j * c2table.chunk_size)).take 4096 = _
    rw [List.drop_replicate, List.take_replicate]
    show List.replicate (min 4096 (10000 - j * c2table.chunk_size)) 7 = _
    rfl
  interval_cases i <;>
    · rw [hchunk]
      show _ = (List.replicate _ 7).sum
      rw [List.sum_const_nat]
      decide

/-- C2, counterexample.  With `chunk_size = 4096`, `file_len = 10000`,
`offset = 5000`, `len = 3000` (so `end_pos = 8000`), construction opens the
underlying stream over physical bytes `[4096, 8192)` — not `[4096, 10000)`:
`end` is computed from `end_pos`, not from `file_len` — and the single pull
delivers the 3192 bytes `[5000, 8192)` — not 3000 — leaving `pos = 8192`,
not 8000. -/
theorem C2_counterexample :
    ∃ s0 s',
      ChecksummedDataSource.construct c2file 10000 c2table sumAlgo 5000 3000
        none true = .ok s0 ∧
      s0.input_stream = some ⟨4096, 8192⟩ ∧
      s0.input_stream ≠ some ⟨4096, 10000⟩ ∧
      readAll 3001 s0 = .ok ((c2file.drop 5000).take 3192, s') ∧
      ((c2file.drop 5000).take 3192).length = 3192 ∧
      s'.pos = 8192 ∧
      (3192 ≠ 3000 ∧ (8192 : Nat) ≠ 8000) := by
  have hcs : c2table.chunk_size = 2 ^ 12 := by decide
  have h1 : (10000:Nat) + 2 ^ 12 < W64 := by decide
  rw [show (10000:Nat) = c2file.length from c2file_length.symm]
  rw [construct_ok (k := 12) hcs (by rw [c2file_length]; omega) (by rw [c2file_length]; decide)
    (by omega) (by rw [c2file_length]; omega) (by simp)]
  have hEeq : min (5000 + 3000) c2file.length = 8000 := by
    rw [c2file_length]
    omega
  have hInv : Inv (constructedState c2file c2file.length c2table sumAlgo 5000 none 12
      (min (5000 + 3000) c2file.length)) 12 :=
    inv_constructedState hcs rfl (by rw [c2file_length]; decide) (Nat.min_le_right _ _)
  obtain ⟨s', hrun, hout⟩ := readAll_spec 3001 _ hInv c2_uncorrupted
    (by simp [constructedState]) (by simp only [constructedState]; rw [hEeq]; omega)
  have hfp : finalPos (constructedState c2file c2file.length c2table sumAlgo 5000 none 12
      (min (5000 + 3000) c2file.length)) 12 = 8192 := by
    rw [finalPos, if_neg (by simp only [constructedState]; rw [hEeq]; omega)]
    simp only [constructedState]
    rw [hEeq, c2file_length]
    decide
  have hstream : (constructedState c2file c2file.length c2table sumAlgo 5000 none 12
      (min (5000 + 3000) c2file.length)).input_stream = some ⟨4096, 8192⟩ := by
    dsimp only [constructedState]
    rw [hEeq]
    decide
  refine ⟨_, s', rfl, hstream, ?_, ?_, ?_, ?_, by omega, by omega⟩
  · rw [hstream]
    intro hq
    injection hq with hq2
    injection hq2 with h1 h2
    rw [c2file_length] at h2
    omega
  · rw [hrun, hfp]
    dsimp only [constructedState]
  · rw [List.length_take, List.length_drop, c2file_length]
    omega
  · rw [hout.pos_eq, hfp]



/-- C2, amended.  In the scenario `chunk_size = 4096`, `file_len = 10000`,
chunks of sizes 4096, 4096, 1808 each with a correct checksum, constructing
the reader with `offset = 5000, len = 3000` opens the underlying stream over
physical bytes `[4096, 8192)` (the chunk-aligned cover of `[5000, 8000)`,
with the end rounded up one chunk from `end_pos`, not `file_len`); the first
delivered chunk has its leading `5000 mod 4096 = 904` bytes trimmed, and the
reader delivers the `4096 - 904 = 3192` logical bytes `[5000, 8192)`, leaving
`pos = 8192` when the stream is exhausted. -/
theorem C2_amended :
    ∃ s0 s1 s',
      ChecksummedDataSource.construct c2file 10000 c2table sumAlgo 5000 3000
        none true = .ok s0 ∧
      s0.input_stream = some ⟨4096, 8192⟩ ∧
      s0.get = .ok ((c2file.drop 5000).take 3192, s1) ∧
      ((c2file.drop 5000).take 3192).length = 4096 - 904 ∧
      readAll 3001 s0 = .ok ((c2file.drop 5000).take 3192, s') ∧
      s'.pos = 8192 := by
  have hcs : c2table.chunk_size = 2 ^ 12 := by decide
  rw [show (10000:Nat) = c2file.length from c2file_length.symm]
  rw [construct_ok (k := 12) hcs (by rw [c2file_length]; omega)
    (by rw [c2file_length]; decide) (by omega) (by rw [c2file_length]; omega) (by simp)]
  have hEeq : min (5000 + 3000) c2file.length = 8000 := by
    rw [c2file_length]
    omega
  have hInv : Inv (constructedState c2file c2file.length c2table sumAlgo 5000 none 12
      (min (5000 + 3000) c2file.length)) 12 :=
    inv_constructedState hcs rfl (by rw [c2file_length]; decide) (Nat.min_le_right _ _)
  have hlt : (constructedState c2file c2file.length c2table sumAlgo 5000 none 12
      (min (5000 + 3000) c2file.length)).pos
      < (constructedState c2file c2file.length c2table sumAlgo 5000 none 12
      (min (5000 + 3000) c2file.length)).end_pos := by
    simp only [constructedState]
    rw [hEeq]
    omega
  have hnp : nextPos (constructedState c2file c2file.length c2table sumAlgo 5000 none 12
      (min (5000 + 3000) c2file.length)) 12 = 8192 := by
    rw [nextPos]
    simp only [constructedState]
    rw [c2file_length]
    decide
  obtain ⟨s1, hget, hstep⟩ := get_step hInv hlt c2_uncorrupted (by simp [constructedState])
  obtain ⟨s', hrun, hout⟩ := readAll_spec 3001 _ hInv c2_uncorrupted
    (by simp [constructedState]) (by simp only [constructedState]; rw [hEeq]; omega)
  have hfp : finalPos (constructedState c2file c2file.length c2table sumAlgo 5000 none 12
      (min (5000 + 3000) c2file.length)) 12 = 8192 := by
    rw [finalPos, if_neg (by simp only [constructedState]; rw [hEeq]; omega)]
    simp only [constructedState]
    rw [hEeq, c2file_length]
    decide
  have hstream : (constructedState c2file c2file.length c2table sumAlgo 5000 none 12
      (min (5000 + 3000) c2file.length)).input_stream = some ⟨4096, 8192⟩ := by
    dsimp only [constructedState]
    rw [hEeq]
    decide
  refine ⟨_, s1, s', rfl, hstream, ?_, ?_, ?_, ?_⟩
  · rw [hget, hnp]
    dsimp only [constructedState]
  · rw [List.length_take, List.length_drop, c2file_length]
    omega
  · rw [hrun, hfp]
    dsimp only [constructedState]
  · rw [hout.pos_eq, hfp]

/-- C3, counterexample.  An expected digest together with an *empty* request
(`len = 0`) over a non-empty file passes construction even though the range
does not cover the file and no result slot was provided: the empty-range
early return precedes the digest checks. -/
theorem C3_counterexample :
    ∃ s, ChecksummedDataSource.construct file8 8 table8 sumAlgo 0 0 (some 108)
        false = .ok s ∧
      s.expected_digest = some 108 ∧
      s.end_pos - s.pos ≠ s.file_len := by
  refine ⟨_, by rfl, by decide, by decide⟩

/-- C3, amended.  When an expected digest is supplied and the requested range
is non-empty (`len ≠ 0` and `offset ≠ file_len`), construction fails with a
usage error unless the clamped range covers the entire file and a result slot
was provided; and every `skip` on a reader with an active digest check fails
with a usage error.  (The empty-range construction path returns before these
checks.)  All of these failures happen at construction or `skip` time, before
any pull. -/
theorem C3_amended {file : List Nat} {file_len : Nat} {cksum : Checksum}
    {algo : ChecksumUtils} {pos len d k : Nat} {slotp : Bool}
    (hcs : cksum.chunk_size = 2 ^ k) (hpos : pos ≤ file_len)
    (hW : file_len < W64) (hlen : len ≠ 0) (hpf : pos ≠ file_len) :
    (min (pos + len) file_len - pos ≠ file_len →
      ChecksummedDataSource.construct file file_len cksum algo pos len (some d)
        slotp = .error (.internal "Cannot check digest with a partial read")) ∧
    (min (pos + len) file_len - pos = file_len →
      ChecksummedDataSource.construct file file_len cksum algo pos len (some d)
        false = .error
          (.internal "Requested digest check but no output parameter was provided.")) ∧
    (∀ (s : ChecksummedDataSource) (n : Nat), s.expected_digest.isSome = true →
      s.skip n = .error
        (.internal "Tried to skip on a data source for which digest check has been requested.")) := by
  refine ⟨?_, ?_, ?_⟩
  · intro hne
    exact construct_digest_partial_read hcs hpos hW hlen hpf (by omega)
  · intro hfull
    exact construct_digest_noslot hcs hpos hW hlen hpf hfull
  · intro s n hd
    unfold ChecksummedDataSource.skip
    rw [if_pos hd]

theorem C3_amended_witness :
    table8.chunk_size = 2 ^ 2 ∧ 0 ≤ 8 ∧ (8:Nat) < W64 ∧ (2:Nat) ≠ 0 ∧ (0:Nat) ≠ 8 ∧
    ((min (0 + 2) 8 - 0 ≠ 8 →
      ChecksummedDataSource.construct file8 8 table8 sumAlgo 0 2 (some 108)
        true = .error (.internal "Cannot check digest with a partial read")) ∧
    (min (0 + 2) 8 - 0 = 8 →
      ChecksummedDataSource.construct file8 8 table8 sumAlgo 0 2 (some 108)
        false = .error
          (.internal "Requested digest check but no output parameter was provided.")) ∧
    (∀ (s : ChecksummedDataSource) (n : Nat), s.expected_digest.isSome = true →
      s.skip n = .error
        (.internal "Tried to skip on a data source for which digest check has been requested."))) :=
  ⟨by decide, by decide, by decide, by decide, by decide,
    C3_amended (k := 2) (by decide) (by decide) (by decide) (by decide) (by decide)⟩

/-- C4, counterexample.  A non-empty-range construction *without* a digest
check still stores `in_progress` through the result slot: the slot is not
left untouched. -/
theorem C4_counterexample :
    ∃ s, ChecksummedDataSource.construct file8 8 table8 sumAlgo 0 2 none true
        = .ok s ∧
      s.expected_digest = none ∧
      s.digest_result = some ⟨.in_progress, none⟩ ∧
      s.digest_result ≠ none := by
  refine ⟨_, by rfl, by decide, by decide, by decide⟩

/-- C4, amended.  At construction the reader stores `in_progress` to the
caller-supplied result slot for *every* non-empty range — whether or not a
digest check was requested — before any bytes are read; only the empty-range
path (`len = 0` or `offset = file_len`) leaves the slot untouched (even when
a digest check was requested). -/
theorem C4_amended {file : List Nat} {file_len : Nat} {cksum : Checksum}
    {algo : ChecksumUtils} {pos len : Nat} {digest : Option Nat} {slotp : Bool}
    {s : ChecksummedDataSource} {k : Nat}
    (hcs : cksum.chunk_size = 2 ^ k) (hbound : file_len + 2 ^ k < W64)
    (h : ChecksummedDataSource.construct file file_len cksum algo pos len digest
      slotp = .ok s) :
    (len = 0 ∨ pos = file_len →
      s.digest_result = none ∧ s.digest_result_writes = 0) ∧
    (¬(len = 0 ∨ pos = file_len) →
      s.digest_result = some ⟨.in_progress, none⟩ ∧ s.digest_result_writes = 1) := by
  obtain ⟨hpos, hc⟩ := construct_cases hcs hbound h
  rcases hc with ⟨hempty, rfl⟩ | ⟨hlen, hpf, hslot, rfl⟩
  · exact ⟨fun _ => ⟨rfl, rfl⟩, fun hne => absurd hempty hne⟩
  · exact ⟨fun hemp => absurd hemp (by push_neg; exact ⟨hlen, hpf⟩),
      fun _ => ⟨rfl, rfl⟩⟩

theorem C4_amended_witness :
    table8.chunk_size = 2 ^ 2 ∧ (8:Nat) + 2 ^ 2 < W64 ∧
    (∃ s, ChecksummedDataSource.construct file8 8 table8 sumAlgo 3 2 none true
        = .ok s ∧
      ((2 = 0 ∨ 3 = 8 → s.digest_result = none ∧ s.digest_result_writes = 0) ∧
       (¬(2 = 0 ∨ 3 = 8) →
         s.digest_result = some ⟨.in_progress, none⟩ ∧ s.digest_result_writes = 1))) :=
  by
  refine ⟨by decide, by decide, ?_⟩
  have h : ChecksummedDataSource.construct file8 8 table8 sumAlgo 3 2 none true
      = .ok (constructedState file8 8 table8 sumAlgo 3 none 2 (min (3 + 2) 8)) :=
    construct_ok (k := 2) (by decide) (by decide) (by decide) (by decide)
      (by decide) (by simp)
  exact ⟨_, h, C4_amended (k := 2) (by decide) (by decide) h⟩



/-- C5.  For every live reader state, if the checksum computed by the
pluggable verifier over the raw (untrimmed) chunk bytes differs from the
table entry for that chunk, `get()` fails with the corruption error carrying
the chunk's raw size, its file offset (`underlying_pos`, which equals the
chunk-aligned offset of `pos`), and the expected and actual checksums; no
buffer is delivered for the chunk and the pull loop delivers nothing
further — it propagates the same error. -/
theorem C5_corruption {s : ChecksummedDataSource} {k : Nat}
    (hInv : Inv s k) (hlt : s.pos < s.end_pos)
    (hbad : s.checksum.checksums.getD (s.pos / 2 ^ k) 0
      ≠ s.algo.checksum (chunkAt s.file (2 ^ k) (s.pos / 2 ^ k))) :
    s.underlying_pos = s.pos / 2 ^ k * 2 ^ k ∧
    s.get = .error (.malformed (chunkAt s.file (2 ^ k) (s.pos / 2 ^ k)).length
      (s.pos / 2 ^ k * 2 ^ k)
      (s.checksum.checksums.getD (s.pos / 2 ^ k) 0)
      (s.algo.checksum (chunkAt s.file (2 ^ k) (s.pos / 2 ^ k)))) ∧
    (∀ fuel, readAll (fuel + 1) s =
      .error (.malformed (chunkAt s.file (2 ^ k) (s.pos / 2 ^ k)).length
        (s.pos / 2 ^ k * 2 ^ k)
        (s.checksum.checksums.getD (s.pos / 2 ^ k) 0)
        (s.algo.checksum (chunkAt s.file (2 ^ k) (s.pos / 2 ^ k))))) := by
  obtain ⟨st, hst, hoff, hupos, hhi⟩ := hInv.stream hlt
  have hup : s.underlying_pos = s.pos / 2 ^ k * 2 ^ k := by rw [hupos, hoff]
  have hget : s.get = .error (.malformed (chunkAt s.file (2 ^ k) (s.pos / 2 ^ k)).length
      (s.pos / 2 ^ k * 2 ^ k)
      (s.checksum.checksums.getD (s.pos / 2 ^ k) 0)
      (s.algo.checksum (chunkAt s.file (2 ^ k) (s.pos / 2 ^ k)))) := by
    rw [get_eq_of_inv hInv hlt]
    dsimp only
    rw [if_pos hbad, hup]
  refine ⟨hup, hget, ?_⟩
  intro fuel
  rw [readAll, hget]
  rfl

/-- State of a freshly constructed reader over `file8` whose checksum table
has a corrupted entry for chunk 0. -/
theorem C5_corruption_witness :
    table8bad.checksums.getD 0 0 ≠ sumAlgo.checksum (chunkAt file8 (2 ^ 2) 0) ∧
    ((constructedState file8 8 table8bad sumAlgo 0 none 2 8).underlying_pos
        = 0 / 2 ^ 2 * 2 ^ 2 ∧
      (constructedState file8 8 table8bad sumAlgo 0 none 2 8).get =
        .error (.malformed (chunkAt file8 (2 ^ 2) 0).length (0 / 2 ^ 2 * 2 ^ 2)
          (table8bad.checksums.getD 0 0)
          (sumAlgo.checksum (chunkAt file8 (2 ^ 2) 0))) ∧
      (∀ fuel, readAll (fuel + 1) (constructedState file8 8 table8bad sumAlgo 0 none 2 8) =
        .error (.malformed (chunkAt file8 (2 ^ 2) 0).length (0 / 2 ^ 2 * 2 ^ 2)
          (table8bad.checksums.getD 0 0)
          (sumAlgo.checksum (chunkAt file8 (2 ^ 2) 0))))) :=
  ⟨by decide,
    C5_corruption (inv_constructedState (by decide) (by decide) (by decide) (by decide))
      (by decide) (by decide)⟩

/-- C6.  On a digest-checked full-file read of a non-empty uncorrupted file:
construction writes `in_progress` once; the pull that brings `pos` to
`file_len` writes the slot exactly once more (total writes 2) — `valid` if
the running accumulator equals the expected digest, `invalid` with a
non-empty message otherwise — and a digest mismatch is never raised as an
error: the run returns all bytes and terminates normally either way. -/
theorem C6_digest {file : List Nat} {cksum : Checksum} {algo : ChecksumUtils}
    {k ed : Nat}
    (hcs : cksum.chunk_size = 2 ^ k)
    (hbound : file.length + 2 ^ k < W64)
    (hne : file.length ≠ 0)
    (hU : Uncorrupted file cksum algo) :
    ∃ s0 s',
      ChecksummedDataSource.construct file file.length cksum algo 0 file.length
        (some ed) true = .ok s0 ∧
      s0.digest_result = some ⟨.in_progress, none⟩ ∧
      s0.digest_result_writes = 1 ∧
      readAll (file.length + 1) s0 = .ok (file, s') ∧
      s'.pos = file.length ∧
      s'.digest_result_writes = 2 ∧
      (ed = s'.actual_digest → s'.digest_result = some ⟨.valid, none⟩) ∧
      (ed ≠ s'.actual_digest →
        ∃ m, s'.digest_result = some ⟨.invalid, some m⟩ ∧ m ≠ "") := by
  have hEeq : min (0 + file.length) file.length = file.length := by omega
  rw [construct_ok (k := k) hcs (by omega) hbound hne (fun h => (hne h.symm).elim)
    (fun _ => by omega)]
  have hInv : Inv (constructedState file file.length cksum algo 0 (some ed) k
      (min (0 + file.length) file.length)) k :=
    inv_constructedState hcs rfl hbound (Nat.min_le_right _ _)
  obtain ⟨s', hrun, hout⟩ := readAll_spec (file.length + 1) _ hInv hU
    (by simp [constructedState]) (by simp only [constructedState]; omega)
  have hlt : (constructedState file file.length cksum algo 0 (some ed) k
      (min (0 + file.length) file.length)).pos
      < (constructedState file file.length cksum algo 0 (some ed) k
      (min (0 + file.length) file.length)).end_pos := by
    simp only [constructedState]
    omega
  have hfp : finalPos (constructedState file file.length cksum algo 0 (some ed) k
      (min (0 + file.length) file.length)) k = file.length :=
    finalPos_eq_file_len hlt (by simp only [constructedState]; omega)
  have hcond : ((constructedState file file.length cksum algo 0 (some ed) k
        (min (0 + file.length) file.length)).expected_digest.isSome = true ∧
      (constructedState file file.length cksum algo 0 (some ed) k
        (min (0 + file.length) file.length)).pos
        < (constructedState file file.length cksum algo 0 (some ed) k
        (min (0 + file.length) file.length)).end_pos ∧
      finalPos (constructedState file file.length cksum algo 0 (some ed) k
        (min (0 + file.length) file.length)) k
        = (constructedState file file.length cksum algo 0 (some ed) k
        (min (0 + file.length) file.length)).file_len) := by
    refine ⟨by simp [constructedState], hlt, ?_⟩
    rw [hfp]
    simp only [constructedState]
  obtain ⟨hvalid, hinvalid⟩ := hout.slot_written ed (by simp [constructedState])
    hlt (by rw [hfp]; simp only [constructedState])
  refine ⟨_, s', rfl, rfl, rfl, ?_, ?_, ?_, hvalid, hinvalid⟩
  · rw [hrun, hfp]
    dsimp only [constructedState]
    rw [Nat.sub_zero, List.drop_zero, List.take_length]
  · rw [hout.pos_eq, hfp]
  · rw [hout.writes, if_pos hcond]
    rfl

theorem C6_digest_witness :
    (⟨4, [6]⟩ : Checksum).chunk_size = 2 ^ 2 ∧
    ([1, 2, 3] : List Nat).length + 2 ^ 2 < W64 ∧
    ([1, 2, 3] : List Nat).length ≠ 0 ∧
    Uncorrupted [1, 2, 3] ⟨4, [6]⟩ sumAlgo ∧
    (∃ s0 s',
      ChecksummedDataSource.construct [1, 2, 3] ([1, 2, 3] : List Nat).length
        ⟨4, [6]⟩ sumAlgo 0 ([1, 2, 3] : List Nat).length (some 6) true = .ok s0 ∧
      s0.digest_result = some ⟨.in_progress, none⟩ ∧
      s0.digest_result_writes = 1 ∧
      readAll (([1, 2, 3] : List Nat).length + 1) s0 = .ok ([1, 2, 3], s') ∧
      s'.pos = ([1, 2, 3] : List Nat).length ∧
      s'.digest_result_writes = 2 ∧
      (6 = s'.actual_digest → s'.digest_result = some ⟨.valid, none⟩) ∧
      (6 ≠ s'.actual_digest →
        ∃ m, s'.digest_result = some ⟨.invalid, some m⟩ ∧ m ≠ "")) :=
  ⟨by decide, by decide, by decide, by decide,
    C6_digest (k := 2) (by decide) (by decide) (by decide) (by decide)⟩

/-- C7.  In every reader state reachable by any sequence of successful
`get()` and `skip()` calls from a construction over the file it describes,
whenever `get()` proceeds to read a chunk (`pos < end_pos`) the alignment
invariant `pos = beg_pos ∨ pos % chunk_size = 0` holds; in any state that
violates it, `get()` raises the `std::runtime_error` misalignment error,
which is a different error from the corruption error. -/
theorem C7_alignment {file : List Nat} {file_len : Nat} {cksum : Checksum}
    {algo : ChecksumUtils} {pos len : Nat} {digest : Option Nat} {slotp : Bool}
    {s0 t : ChecksummedDataSource} {k : Nat}
    (hcs : cksum.chunk_size = 2 ^ k)
    (hflen : file_len = file.length)
    (hbound : file_len + 2 ^ k < W64)
    (h0 : ChecksummedDataSource.construct file file_len cksum algo pos len
      digest slotp = .ok s0)
    (hr : Reachable s0 t) :
    (t.pos < t.end_pos → t.pos = t.beg_pos ∨ t.pos % t.checksum.chunk_size = 0) ∧
    (∀ u : ChecksummedDataSource, u.pos < u.end_pos → u.pos ≠ u.beg_pos →
      u.pos &&& (u.checksum.chunk_size - 1) ≠ 0 →
      u.get = .error (.runtime "Checksummed reader not aligned to chunk boundary")) ∧
    (∀ (m : String) (sz off exp act : Nat),
      SstError.runtime m ≠ SstError.malformed sz off exp act) := by
  have hInv : Inv t k := reachable_inv (construct_inv hcs hflen hbound h0) hr
  refine ⟨?_, ?_, ?_⟩
  · intro hlt
    rw [hInv.cs_eq]
    exact hInv.align hlt
  · intro u hlt hne hmask
    unfold ChecksummedDataSource.get
    rw [if_neg (by omega : ¬ u.pos ≥ u.end_pos), if_pos ⟨hne, hmask⟩]
  · intro m sz off exp act h
    cases h

theorem C7_alignment_witness :
    table8.chunk_size = 2 ^ 2 ∧ (8:Nat) = file8.length ∧ (8:Nat) + 2 ^ 2 < W64 ∧
    (∃ s0, ChecksummedDataSource.construct file8 8 table8 sumAlgo 1 5 none true
        = .ok s0 ∧
      ((s0.pos < s0.end_pos → s0.pos = s0.beg_pos ∨ s0.pos % s0.checksum.chunk_size = 0) ∧
       (∀ u : ChecksummedDataSource, u.pos < u.end_pos → u.pos ≠ u.beg_pos →
         u.pos &&& (u.checksum.chunk_size - 1) ≠ 0 →
         u.get = .error (.runtime "Checksummed reader not aligned to chunk boundary")) ∧
       (∀ (m : String) (sz off exp act : Nat),
         SstError.runtime m ≠ SstError.malformed sz off exp act))) := by
  refine ⟨by decide, by decide, by decide, ?_⟩
  have h : ChecksummedDataSource.construct file8 8 table8 sumAlgo 1 5 none true
      = .ok (constructedState file8 8 table8 sumAlgo 1 none 2 (min (1 + 5) 8)) :=
    construct_ok (k := 2) (by decide) (by decide) (by decide) (by decide)
      (by decide) (by simp)
  exact ⟨_, h, C7_alignment (k := 2) (by decide) (by decide) (by decide) h
    (Reachable.refl _)⟩

/-- C8, counterexample.  With the uncorrupted 8-byte file and the request
`[0, 6)`: plain sequential reads deliver all 8 bytes (tail overshoot of the
final chunk), so "discard the first 6 of the concatenated output" leaves the
2 bytes `[16, 17]` — but `skip(6)` moves `pos` to `end_pos` and the skipped
reader delivers nothing.  The equivalence fails for the boundary skip
`n = end_pos - pos`. -/
theorem C8_counterexample :
    ((ChecksummedDataSource.construct file8 8 table8 sumAlgo 0 6 none true).bind
        (fun s0 => (readAll 3 s0).map Prod.fst)) = .ok file8 ∧
    ((ChecksummedDataSource.construct file8 8 table8 sumAlgo 0 6 none true).bind
        (fun s0 => (s0.skip 6).bind
          (fun s1 => (readAll 3 s1).map Prod.fst))) = .ok [] ∧
    ([] : List Nat) ≠ file8.drop 6 := by
  refine ⟨by rfl, by rfl, by decide⟩

/-- C8, amended.  For every reader constructed without a digest check over an
uncorrupted file and every `n` with `pos + n` strictly below `end_pos`,
`skip(n)` followed by reading to exhaustion returns the same bytes as reading
via repeated `get()` and discarding the first `n` bytes of the concatenated
output.  (At the boundary `pos + n = end_pos` the skipped reader delivers
nothing while the plain read may deliver the tail of the final chunk.) -/
theorem C8_amended {file : List Nat} {cksum : Checksum} {algo : ChecksumUtils}
    {offset len n k : Nat}
    (hcs : cksum.chunk_size = 2 ^ k)
    (hbound : file.length + 2 ^ k < W64)
    (hoff : offset ≤ file.length)
    (hU : Uncorrupted file cksum algo) :
    ∃ s0, ChecksummedDataSource.construct file file.length cksum algo offset len
        none true = .ok s0 ∧
      (s0.pos + n < s0.end_pos →
        ∃ bs t s1 t', readAll (file.length + 1) s0 = .ok (bs, t) ∧
          s0.skip n = .ok s1 ∧
          readAll (file.length + 1) s1 = .ok (bs.drop n, t')) := by
  by_cases hempty : len = 0 ∨ offset = file.length
  · rw [construct_empty hcs hoff hempty]
    refine ⟨_, rfl, ?_⟩
    intro hlt
    exact absurd hlt (by simp [emptyRangeState])
  · push_neg at hempty
    obtain ⟨hlen, hpf⟩ := hempty
    rw [construct_ok hcs hoff hbound hlen hpf (by simp)]
    refine ⟨_, rfl, ?_⟩
    intro hlt
    have hInv : Inv (constructedState file file.length cksum algo offset none k
        (min (offset + len) file.length)) k :=
      inv_constructedState hcs rfl hbound (Nat.min_le_right _ _)
    obtain ⟨s', hrun, hout⟩ := readAll_spec (file.length + 1) _ hInv hU
      (by simp [constructedState]) (by simp only [constructedState]; omega)
    obtain ⟨st, hst, hskip⟩ := skip_eq_of_inv (n := n) hInv (by simp [constructedState]) hlt
    set s1 := { constructedState file file.length cksum algo offset none k
        (min (offset + len) file.length) with
      pos := (constructedState file file.length cksum algo offset none k
        (min (offset + len) file.length)).pos + n
      beg_pos := (constructedState file file.length cksum algo offset none k
        (min (offset + len) file.length)).pos + n
      underlying_pos := ((constructedState file file.length cksum algo offset none k
        (min (offset + len) file.length)).pos + n) / 2 ^ k * 2 ^ k
      input_stream := some ⟨((constructedState file file.length cksum algo offset none k
        (min (offset + len) file.length)).pos + n) / 2 ^ k * 2 ^ k, st.hi⟩ } with hs1
    have hInv1 : Inv s1 k := skip_inv hInv hskip
    have hlt1 : s1.pos < s1.end_pos := by
      rw [hs1]
      simp only [constructedState] at hlt ⊢
      omega
    obtain ⟨t', hrun1, hout1⟩ := readAll_spec (file.length + 1) s1 hInv1
      (by rw [hs1]; exact hU) (by rw [hs1]; simp [constructedState])
      (by
        have h1 : s1.end_pos ≤ s1.file_len := hInv1.end_le
        have h2 : s1.file_len = file.length := rfl
        omega)
    have hfp1 : finalPos s1 k = finalPos (constructedState file file.length cksum algo
        offset none k (min (offset + len) file.length)) k := by
      refine finalPos_congr ?_ ?_ (by simp only [constructedState] at hlt ⊢; omega) hlt1
      · rw [hs1]
      · rw [hs1]
    have hcpos : (constructedState file file.length cksum algo offset none k
        (min (offset + len) file.length)).pos = offset := rfl
    have hs1pos : s1.pos = offset + n := rfl
    have hs1file : s1.file = file := rfl
    have harith : ∀ X : Nat, X - (offset + n) = X - offset - n := fun X => by omega
    refine ⟨_, s', _, t', hrun, hskip, ?_⟩
    rw [hrun1, hfp1, hs1pos, hs1file, hcpos, List.drop_take, List.drop_drop, harith]



theorem C8_amended_witness :
    table8.chunk_size = 2 ^ 2 ∧ file8.length + 2 ^ 2 < W64 ∧
    0 ≤ file8.length ∧ Uncorrupted file8 table8 sumAlgo ∧
    (∃ s0, ChecksummedDataSource.construct file8 file8.length table8 sumAlgo 0 6
        none true = .ok s0 ∧
      (s0.pos + 5 < s0.end_pos →
        ∃ bs t s1 t', readAll (file8.length + 1) s0 = .ok (bs, t) ∧
          s0.skip 5 = .ok s1 ∧
          readAll (file8.length + 1) s1 = .ok (bs.drop 5, t'))) :=
  ⟨by decide, by decide, by decide, by decide,
    C8_amended (k := 2) (n := 5) (by decide) (by decide) (by decide)
      (by decide)⟩

/-- C9.  For every non-empty request with a power-of-two chunk size (and a
digest only over a whole-file range, which is what the constructor accepts),
construction opens the underlying stream over exactly
`[beg_pos / chunk_size * chunk_size, (end_pos / chunk_size + 1) * chunk_size)`
— the end unconditionally rounded up one chunk past the chunk containing
`end_pos`, even when `end_pos` is aligned — initializes `underlying_pos` to
the start of that span, and the bitmask computation in the code equals this
division-based arithmetic. -/
theorem C9_physical_span {file : List Nat} {file_len : Nat} {cksum : Checksum}
    {algo : ChecksumUtils} {pos len k : Nat} {digest : Option Nat}
    (hcs : cksum.chunk_size = 2 ^ k)
    (hpos : pos ≤ file_len) (hbound : file_len + 2 ^ k < W64)
    (hlen : len ≠ 0) (hpf : pos ≠ file_len)
    (hdig : digest.isSome = true → min (pos + len) file_len - pos = file_len) :
    ∃ s, ChecksummedDataSource.construct file file_len cksum algo pos len digest
        true = .ok s ∧
      s.beg_pos = pos ∧
      s.end_pos = min (pos + len) file_len ∧
      s.input_stream = some ⟨s.beg_pos / cksum.chunk_size * cksum.chunk_size,
        (s.end_pos / cksum.chunk_size + 1) * cksum.chunk_size⟩ ∧
      s.underlying_pos = s.beg_pos / cksum.chunk_size * cksum.chunk_size := by
  rw [construct_ok hcs hpos hbound hlen hpf hdig]
  refine ⟨_, rfl, rfl, rfl, ?_, ?_⟩
  · dsimp only [constructedState]
    rw [hcs]
    congr 1
    rw [Nat.succ_mul]
  · dsimp only [constructedState]
    rw [hcs]

theorem C9_physical_span_witness :
    table8.chunk_size = 2 ^ 2 ∧ (3:Nat) ≤ 8 ∧ (8:Nat) + 2 ^ 2 < W64 ∧
    (5:Nat) ≠ 0 ∧ (3:Nat) ≠ 8 ∧
    (∃ s, ChecksummedDataSource.construct file8 8 table8 sumAlgo 3 5 none
        true = .ok s ∧
      s.beg_pos = 3 ∧
      s.end_pos = min (3 + 5) 8 ∧
      s.input_stream = some ⟨s.beg_pos / table8.chunk_size * table8.chunk_size,
        (s.end_pos / table8.chunk_size + 1) * table8.chunk_size⟩ ∧
      s.underlying_pos = s.beg_pos / table8.chunk_size * table8.chunk_size) :=
  ⟨by decide, by decide, by decide, by decide, by decide,
    C9_physical_span (k := 2) (by decide) (by decide) (by decide) (by decide)
      (by decide) (by simp)⟩

/-- C10.  With a non-empty range and no digest check requested, the
constructor still reaches the unguarded store `*_digest_result = in_progress`
(line 88), so a null result slot is dereferenced — undefined behaviour; the
explicit null-slot check only runs when a digest is supplied (and fires
before the store); only the empty-range path is safe without a result
slot. -/
theorem C10_null_slot {file : List Nat} {file_len : Nat} {cksum : Checksum}
    {algo : ChecksumUtils} {pos len d k : Nat}
    (hcs : cksum.chunk_size = 2 ^ k) (hpos : pos ≤ file_len)
    (hW : file_len < W64) :
    (len ≠ 0 → pos ≠ file_len →
      ChecksummedDataSource.construct file file_len cksum algo pos len none false
        = .error .nullWrite) ∧
    (len = 0 ∨ pos = file_len →
      ∃ s, ChecksummedDataSource.construct file file_len cksum algo pos len none
        false = .ok s) ∧
    (len ≠ 0 → pos ≠ file_len → min (pos + len) file_len - pos = file_len →
      ChecksummedDataSource.construct file file_len cksum algo pos len (some d)
        false = .error
          (.internal "Requested digest check but no output parameter was provided.")) := by
  refine ⟨?_, ?_, ?_⟩
  · intro hlen hpf
    exact construct_nullwrite hcs hpos hlen hpf
  · intro hempty
    exact ⟨_, construct_empty hcs hpos hempty⟩
  · intro hlen hpf hfull
    exact construct_digest_noslot hcs hpos hW hlen hpf hfull

theorem C10_null_slot_witness :
    table8.chunk_size = 2 ^ 2 ∧ (0:Nat) ≤ 8 ∧ (8:Nat) < W64 ∧
    ((8 ≠ 0 → (0:Nat) ≠ 8 →
      ChecksummedDataSource.construct file8 8 table8 sumAlgo 0 8 none false
        = .error .nullWrite) ∧
    ((8:Nat) = 0 ∨ (0:Nat) = 8 →
      ∃ s, ChecksummedDataSource.construct file8 8 table8 sumAlgo 0 8 none
        false = .ok s) ∧
    (8 ≠ 0 → (0:Nat) ≠ 8 → min (0 + 8) 8 - 0 = 8 →
      ChecksummedDataSource.construct file8 8 table8 sumAlgo 0 8 (some 108)
        false = .error
          (.internal "Requested digest check but no output parameter was provided."))) :=
  ⟨by decide, by decide, by decide,
    C10_null_slot (k := 2) (d := 108) (by decide) (by decide) (by decide)⟩

end Sstables
